import Mathlib

/-!
Shallow embedding of the hwy-go nested router (src/router): the pattern
matcher, the chain resolver (getMatchingPathsInternal and friends), the
data-orchestration error reduction, and the head-block deduplication.
Go strings are Lean `String`s; Go slices are Lean `List`s; Go maps
(string-keyed) are association lists with overwrite-on-insert; nilable
Go pointers/interfaces are `Option`s.  Go runtime panics (out-of-range
slice bounds, nil-pointer writes) are made explicit with `Except`.
-/

namespace Hwy

/-! ## String primitives (Go strings package, byte = ASCII char level) -/

/-- Character-level split, matching Go strings.Split semantics for a
one-character separator: splitting the empty string gives [""]. -/
def splitChars (sep : Char) : List Char → List (List Char)
  | [] => [[]]
  | c :: cs =>
    let r := splitChars sep cs
    if c = sep then [] :: r
    else
      match r with
      | h :: t => (c :: h) :: t
      | [] => [[c]]

/-- Go strings.Split(s, "/"). -/
def goSplitSlash (s : String) : List String :=
  (splitChars '/' s.data).map String.mk

/-- Go strings.HasPrefix(s, c) for a one-character prefix. -/
def strHasPrefixChar (s : String) (c : Char) : Bool :=
  match s.data with
  | [] => false
  | d :: _ => d = c

/-- Go s[1:] on a nonempty ASCII string (used for `patternSegment[1:]`). -/
def strTail (s : String) : String :=
  String.mk s.data.tail

/-- Go strings.TrimPrefix(s, "/"). -/
def trimSlashPrefix (s : String) : String :=
  match s.data with
  | [] => s
  | c :: rest => if c = '/' then String.mk rest else s

/-- Go `len(segment) > 0` filter used to drop empty path segments. -/
def nonEmptySegments (s : String) : List String :=
  (goSplitSlash s).filter (fun seg => seg.length > 0)

/-- Path normalization from getMatchingPathData: a trailing slash is
stripped unless the path is exactly "/" (Go realPath[:len-1]). -/
def normalizePath (s : String) : String :=
  if s ≠ "/" ∧ s.data.getLast? = some '/' then String.mk s.data.dropLast else s

/-! ## Route table data model (router.go) -/

/-- The splat marker constant `SplatSegment = ":catch*"`. -/
def SplatSegment : String := ":catch*"

def PathTypeUltimateCatch : String := "ultimate-catch"
def PathTypeIndex : String := "index"
def PathTypeStaticLayout : String := "static-layout"
def PathTypeDynamicLayout : String := "dynamic-layout"
def PathTypeNonUltimateSplat : String := "non-ultimate-splat"

/-- A registered route (router.Path), with the fields the resolver reads.
The optional DataFuncs bundle is opaque to the resolver and is modeled
separately in the orchestrator section. -/
structure RoutePath where
  Pattern : String
  Segments : List String
  PathType : String
  OutPath : String
deriving DecidableEq, Repr

/-- router.MatchingPath, the per-candidate record produced by matching. -/
structure MatchingPath where
  Score : Nat
  RealSegmentsLength : Nat
  Segments : List String
  PathType : String
  OutPath : String
  Params : List (String × String)
deriving DecidableEq, Repr

/-- The zero value `MatchingPath{}` (Go struct zero value; the nil
Params pointer is modeled as the empty association list). -/
def zeroMatchingPath : MatchingPath :=
  { Score := 0, RealSegmentsLength := 0, Segments := [], PathType := "", OutPath := "", Params := [] }

/-- Go map assignment `m[k] = v` on a string-keyed map modeled as an
association list: overwrite the binding if the key is present, else
append it. -/
def mapSet (m : List (String × String)) (k v : String) : List (String × String) :=
  if m.any (fun kv => kv.1 = k) then
    m.map (fun kv => if kv.1 = k then (k, v) else kv)
  else m ++ [(k, v)]

/-- Go map lookup `m[k]` returning an Option (none models a missing key). -/
def mapGet (m : List (String × String)) (k : String) : Option String :=
  (m.find? (fun kv => kv.1 = k)).map (fun kv => kv.2)

/-! ## getMatchStrength (router.go lines 595-625) -/

structure MatchStrength where
  Score : Nat
  RealSegmentsLength : Nat
deriving DecidableEq, Repr

/-- The scoring loop of getMatchStrength.  `allowLiteral` is the fixed
condition `len(realSegments) >= len(patternSegments)` evaluated on the
full lists (it guards the exact-literal branch on every iteration);
`rs` tracks the real segments from position i onward.  The loop breaks
(adds nothing further) at the first segment earning no points. -/
def strengthLoop (allowLiteral : Bool) : List String → List String → Nat
  | [], _ => 0
  | p :: ps, rs =>
    if allowLiteral ∧ rs.head? = some p then 3 + strengthLoop allowLiteral ps rs.tail
    else if p = SplatSegment then 1 + strengthLoop allowLiteral ps rs.tail
    else if strHasPrefixChar p ':' then 2 + strengthLoop allowLiteral ps rs.tail
    else 0

/-- router.getMatchStrength: score a pattern against a path, both taken
as slash-joined strings with empty segments dropped. -/
def getMatchStrength (pattern path : String) : MatchStrength :=
  let patternSegments := nonEmptySegments pattern
  let realSegments := nonEmptySegments path
  { Score := strengthLoop (decide (realSegments.length ≥ patternSegments.length)) patternSegments realSegments
    RealSegmentsLength := realSegments.length }

/-! ## matcher (router.go lines 1344-1396) -/

structure MatcherOutput where
  path : String
  pattern : String
  isMatch : Bool
  params : List (String × String)
  score : Nat
  realSegmentsLength : Nat
deriving DecidableEq, Repr

/-- The zero matcherOutput{} returned on a non-match. -/
def zeroMatcherOutput : MatcherOutput :=
  { path := "", pattern := "", isMatch := false, params := [], score := 0, realSegmentsLength := 0 }

/-- The segment-walk loop of matcher.  `pathSegs` is the full path
segment list and `i` the current index into it; the pattern segments
are consumed structurally.  Branch order follows the source: literal
equality, then the splat constant, then a leading-colon dynamic segment
(binding a param unless the key is "catch*"), else a hard mismatch.
An exhausted pattern list means every segment matched. -/
def matcherLoop (pathSegs : List String) : List String → Nat → List (String × String) →
    Bool × List (String × String)
  | [], _, params => (true, params)
  | p :: ps, i, params =>
    if pathSegs.get? i = some p then matcherLoop pathSegs ps (i + 1) params
    else if p = SplatSegment then matcherLoop pathSegs ps (i + 1) params
    else if strHasPrefixChar p ':' then
      matcherLoop pathSegs ps (i + 1)
        (if strTail p = "catch*" then params
         else mapSet params (strTail p) (pathSegs.getD i ""))
    else (false, params)

/-- The catch-adjusted pattern segment count of matcher: one less when
the final pattern segment is the splat constant. -/
def matcherAdjustedLength (pattern : String) : Nat :=
  if (goSplitSlash pattern).getLast? = some SplatSegment then (goSplitSlash pattern).length - 1
  else (goSplitSlash pattern).length

/-- The (matches, params) pair of matcher on already-trimmed strings:
an exactly-equal pattern matches at once with no params, otherwise the
segment walk decides. -/
def matcherMP (pattern path : String) : Bool × List (String × String) :=
  if pattern = path then (true, ([] : List (String × String)))
  else matcherLoop (goSplitSlash path) (goSplitSlash pattern) 0 []

/-- router.matcher: match one registered pattern against a request path. -/
def matcher (patternArg pathArg : String) : MatcherOutput :=
  if matcherAdjustedLength (trimSlashPrefix patternArg) >
      (goSplitSlash (trimSlashPrefix pathArg)).length then
    zeroMatcherOutput
  else if (matcherMP (trimSlashPrefix patternArg) (trimSlashPrefix pathArg)).1 = false then
    zeroMatcherOutput
  else
    { path := trimSlashPrefix pathArg, pattern := trimSlashPrefix patternArg, isMatch := true,
      params := (matcherMP (trimSlashPrefix patternArg) (trimSlashPrefix pathArg)).2,
      score := (getMatchStrength (trimSlashPrefix patternArg) (trimSlashPrefix pathArg)).Score,
      realSegmentsLength :=
        (getMatchStrength (trimSlashPrefix patternArg) (trimSlashPrefix pathArg)).RealSegmentsLength }

/-! ## getInitialMatchingPaths (router.go lines 559-582) -/

/-- router.getInitialMatchingPaths over an explicit route table (the Go
code reads the package-level instancePaths pointer). -/
def getInitialMatchingPaths (instancePaths : List RoutePath) (pathToUse : String) :
    List MatchingPath :=
  instancePaths.filterMap (fun path =>
    let pathType := if path.Pattern = "/" ++ SplatSegment then PathTypeUltimateCatch else path.PathType
    let mo := matcher path.Pattern pathToUse
    if mo.isMatch then
      some { Score := mo.score, RealSegmentsLength := mo.realSegmentsLength,
             Segments := path.Segments, PathType := pathType,
             OutPath := path.OutPath, Params := mo.params }
    else none)

/-! ## getMatchingPathsInternal (router.go lines 627-853) -/

/-- The per-candidate predicate of the first loop of
getMatchingPathsInternal: a candidate with RealSegmentsLength zero is
kept unconditionally; other candidates must have declared segment count
at most the real count (index types getting +1), and index candidates
additionally need their non-empty segment count to equal the request
path's segment count. -/
def survivesSegmentFilter (realPath : String) (x : MatchingPath) : Bool :=
  if x.RealSegmentsLength = 0 then true
  else if ¬ (x.Segments.length ≤
      (if x.PathType = PathTypeIndex then x.RealSegmentsLength + 1 else x.RealSegmentsLength)) then
    false
  else if x.PathType ≠ PathTypeIndex then true
  else
    decide ((x.Segments.filter (fun seg => seg.length > 0)).length =
      (nonEmptySegments realPath).length)

/-- The first loop of getMatchingPathsInternal: segment-count filtering. -/
def filterBySegmentLength (pathsArg : List MatchingPath) (realPath : String) :
    List MatchingPath :=
  pathsArg.filter (survivesSegmentFilter realPath)

/-- The ultimate-catch suppression step: with more than one candidate,
drop every ultimate-catch candidate. -/
def dropUltimateCatch (paths : List MatchingPath) : List MatchingPath :=
  if 1 < paths.length then paths.filter (fun x => x.PathType ≠ PathTypeUltimateCatch) else paths

/-- router.getBaseSplatSegments. -/
def getBaseSplatSegments (realPath : String) : List String :=
  nonEmptySegments realPath

/-- The maximum of a list of scores, as computed by the Go
first-then-strictly-greater loop (none for an empty list). -/
def listMaxScore : List Nat → Option Nat
  | [] => none
  | h :: t => some (t.foldl max h)

/-- router.getHighestScoresBySegmentLength as a function from a segment
length to the best definite-match score at that length. -/
def highestScoreAt (definiteMatches : List MatchingPath) (k : Nat) : Option Nat :=
  listMaxScore ((definiteMatches.filter (fun m => m.Segments.length = k)).map (fun m => m.Score))

/-- Membership test for the contested ("maybe") group: not a static
layout, and strictly above the definite-match score bar at its own
segment length (or no bar exists). -/
def qualifiesForGroup (definiteMatches : List MatchingPath) (x : MatchingPath) : Bool :=
  decide (x.PathType ≠ PathTypeStaticLayout) &&
    match highestScoreAt definiteMatches x.Segments.length with
    | none => true
    | some s => decide (x.Score > s)

/-- The grouped-by-segment-length map of contested candidates, realized
as a list of nonempty groups in ascending key (segment-length) order —
the same traversal Go performs after sorting the map keys.  Group
internal order is candidate order, as produced by map-append. -/
def groupsBySegmentLength (definiteMatches paths : List MatchingPath) :
    List (List MatchingPath) :=
  let qualifying := paths.filter (qualifiesForGroup definiteMatches)
  let maxLen := qualifying.foldl (fun a x => max a x.Segments.length) 0
  ((List.range (maxLen + 1)).filter
      (fun k => qualifying.any (fun x => x.Segments.length = k))).map
    (fun k => qualifying.filter (fun x => x.Segments.length = k))

/-- router.getSplatSegmentsFromWinningPath. -/
def getSplatSegmentsFromWinningPath (winner : MatchingPath) (realPath : String) :
    List String :=
  let filteredData := nonEmptySegments realPath
  let numOfNonSplatSegments := (winner.Segments.filter (fun x => x ≠ SplatSegment)).length
  let numOfSplatSegments : Int := (filteredData.length : Int) - numOfNonSplatSegments
  if numOfSplatSegments > 0 then
    filteredData.drop (filteredData.length - numOfSplatSegments.toNat)
  else []

/-- router.findNonUltimateSplat: first non-ultimate-splat in a group. -/
def findNonUltimateSplat (paths : List MatchingPath) : Option MatchingPath :=
  paths.find? (fun p => p.PathType = PathTypeNonUltimateSplat)

/-- router.getWinnerIsDynamicIndex. -/
def getWinnerIsDynamicIndex (winner : MatchingPath) : Bool :=
  winner.PathType = PathTypeIndex ∧ winner.Segments.length ≥ 2 ∧
    strHasPrefixChar (winner.Segments.getD (winner.Segments.length - 2) "") ':'

/-- The definite-matches-should-override scan: some static-layout match
with the same real-segment count, a different final literal than the
winner's parent dynamic segment, and a strictly higher score. -/
def definiteShouldOverride (definiteMatches : List MatchingPath) (winner : MatchingPath) :
    Bool :=
  definiteMatches.any (fun x =>
    (x.PathType = PathTypeStaticLayout : Bool) ∧
    (x.RealSegmentsLength = winner.RealSegmentsLength : Bool) ∧
    (if x.Segments.length ≥ 1 ∧ winner.Segments.length ≥ 2 then
      decide (x.Segments.getD (x.Segments.length - 1) "" ≠
        winner.Segments.getD (winner.Segments.length - 2) "")
     else false) ∧
    (x.Score > winner.Score : Bool))

/-- The index-candidate update of the winner-selection loop: an index
candidate whose real-segment count is strictly below its declared count
replaces none, or a lower-scoring previous candidate. -/
def winnerIndexCandidate (ic : Option MatchingPath) (p : MatchingPath) : Option MatchingPath :=
  if p.PathType = PathTypeIndex ∧ p.RealSegmentsLength < p.Segments.length then
    match ic with
    | none => some p
    | some c => if p.Score > c.Score then some p else some c
  else ic

/-- One step of the winner-selection loop inside a group: the running
(winner, highestScore, indexCandidate) state updated by one candidate. -/
def winnerStep (st : MatchingPath × Nat × Option MatchingPath) (p : MatchingPath) :
    MatchingPath × Nat × Option MatchingPath :=
  if p.Score > st.2.1 then (p, p.Score, winnerIndexCandidate st.2.2 p)
  else (st.1, st.2.1, winnerIndexCandidate st.2.2 p)

/-- Accumulator threading the mutable locals of the per-group loop:
xformedMaybes, wildcardSplat and splatSegments (nil modeled as none). -/
structure GroupAcc where
  xformedMaybes : List MatchingPath
  wildcardSplat : Option MatchingPath
  splatSegments : Option (List String)
deriving DecidableEq, Repr

/-- The winner of one group: the highest-scoring candidate of the
inner loop, overridden by the index candidate when one exists.  `g0` is
the group's first element (the loop state's initial winner). -/
def groupWinner (group : List MatchingPath) (g0 : MatchingPath) : MatchingPath :=
  ((group.foldl winnerStep (g0, g0.Score, none)).2.2).getD
    (group.foldl winnerStep (g0, g0.Score, none)).1

/-- The wildcardSplat update of one group iteration: the group's
non-ultimate splat (if any) replaces an absent or lower-scoring one. -/
def wildcardSplatUpdate (old : Option MatchingPath) (splat : Option MatchingPath) :
    Option MatchingPath :=
  match splat with
  | none => old
  | some s =>
    match old with
    | none => some s
    | some w => if s.Score > w.Score then some s else some w

/-- The body of the per-group loop of getMatchingPathsInternal.  Groups
are nonempty by construction; the empty case is vacuous (Go would have
indexed paths[0] and can only be called on nonempty groups). -/
def processGroup (definiteMatches : List MatchingPath) (realPath : String)
    (acc : GroupAcc) (group : List MatchingPath) : GroupAcc :=
  match group with
  | [] => acc
  | g0 :: rest =>
    { xformedMaybes :=
        if getWinnerIsDynamicIndex (groupWinner (g0 :: rest) g0) ∧
            definiteShouldOverride definiteMatches (groupWinner (g0 :: rest) g0) then
          acc.xformedMaybes
        else acc.xformedMaybes ++ [groupWinner (g0 :: rest) g0],
      wildcardSplat := wildcardSplatUpdate acc.wildcardSplat (findNonUltimateSplat (g0 :: rest)),
      splatSegments :=
        match findNonUltimateSplat (g0 :: rest) with
        | none => acc.splatSegments
        | some _ =>
          some (getSplatSegmentsFromWinningPath (groupWinner (g0 :: rest) g0) realPath) }

/-- Stable insertion by ascending segment count, realizing the Go
sort.Slice comparison `len(segments i) < len(segments j)` (sort.Slice
leaves the relative order of equal keys unspecified; we fix the stable
order, which agrees with Go whenever the keys are distinct). -/
def insertByLen (x : MatchingPath) : List MatchingPath → List MatchingPath
  | [] => [x]
  | y :: ys =>
    if x.Segments.length < y.Segments.length then x :: y :: ys else y :: insertByLen x ys

/-- router.getMaybeFinalPaths: concatenate and sort by segment count. -/
def getMaybeFinalPaths (definiteMatches xformedMaybes : List MatchingPath) :
    List MatchingPath :=
  (definiteMatches ++ xformedMaybes).foldr insertByLen []

/-- The removal condition at position i: a dynamic-layout immediately
followed by an index entry whose second-to-last declared segment
differs from the dynamic-layout's final segment.  A missing successor
is the Go zero value, whose PathType "" is not an index. -/
def adjacencyRemoveCheck (l : List MatchingPath) (i : Nat) : Bool :=
  match l.get? (i + 1) with
  | none => false
  | some next =>
    ((l.getD i zeroMatchingPath).PathType = PathTypeDynamicLayout : Bool) ∧
    (next.PathType = PathTypeIndex : Bool) ∧
    decide ((l.getD i zeroMatchingPath).Segments.getD
        ((l.getD i zeroMatchingPath).Segments.length - 1) "" ≠
      next.Segments.getD (next.Segments.length - 2) "")

/-- The trailing loop of getMatchingPathsInternal removing a
dynamic-layout immediately followed by an index that does not share its
dynamic segment.  Fuel-based rendering of the in-place Go loop (index i
advances on no-removal; removal keeps i on the shrunk list); the fuel
`l.length + 1` strictly bounds the number of iterations. -/
def adjacencyGo : Nat → List MatchingPath → Nat → List MatchingPath
  | 0, l, _ => l
  | fuel + 1, l, i =>
    if i < l.length then
      if adjacencyRemoveCheck l i then adjacencyGo fuel (l.eraseIdx i) i
      else adjacencyGo fuel l (i + 1)
    else l

/-- The dynamic-layout/index adjacency correction loop. -/
def adjacencyFilter (l : List MatchingPath) : List MatchingPath :=
  adjacencyGo (l.length + 1) l 0

/-- The fallback that collapses everything to the ultimate-catch
candidate of the original argument list (at most one is taken). -/
def ultimateCatchOnly (pathsArg : List MatchingPath) : List MatchingPath :=
  match pathsArg.find? (fun x => x.PathType = PathTypeUltimateCatch) with
  | some u => [u]
  | none => []

/-- The index-adjusted "constructive" segment count of the deepest
chain entry (declared count, minus one for an index). -/
def lastPathConstructiveLength (lastPath : MatchingPath) : Int :=
  if lastPath.PathType = PathTypeIndex then (lastPath.Segments.length : Int) - 1
  else (lastPath.Segments.length : Int)

/-- The splat-correction trigger: the deepest entry overreaches the real
path, or underreaches it without being a non-ultimate splat. -/
def weNeedADifferentSplat (lastPath : MatchingPath) : Bool :=
  decide (lastPathConstructiveLength lastPath > (lastPath.RealSegmentsLength : Int)) ||
    (decide (lastPathConstructiveLength lastPath < (lastPath.RealSegmentsLength : Int)) &&
      decide (lastPath.PathType ≠ PathTypeNonUltimateSplat))

/-- The tail of getMatchingPathsInternal after the groups have been
processed: splat correction on the deepest entry, then the adjacency
correction, returning (splatSegments, chain). -/
def splatCorrectionAndFinish (pathsArg : List MatchingPath) (realPath : String)
    (acc : GroupAcc) (maybeFinalPaths : List MatchingPath) :
    Option (List String) × List MatchingPath :=
  match maybeFinalPaths.getLast? with
  | none => (acc.splatSegments, adjacencyFilter maybeFinalPaths)
  | some lastPath =>
    if weNeedADifferentSplat lastPath then
      match acc.wildcardSplat with
      | some w =>
        (some (getSplatSegmentsFromWinningPath w realPath),
         adjacencyFilter (maybeFinalPaths.set (maybeFinalPaths.length - 1) w))
      | none => (some (getBaseSplatSegments realPath), ultimateCatchOnly pathsArg)
    else (acc.splatSegments, adjacencyFilter maybeFinalPaths)

/-- The definite (static-layout) matches of the multi-candidate phase. -/
def definiteMatchesOf (paths : List MatchingPath) : List MatchingPath :=
  paths.filter (fun x => x.PathType = PathTypeStaticLayout)

/-- The accumulated state after the whole per-group loop. -/
def groupsAccOf (paths : List MatchingPath) (realPath : String) : GroupAcc :=
  (groupsBySegmentLength (definiteMatchesOf paths) paths).foldl
    (processGroup (definiteMatchesOf paths) realPath)
    { xformedMaybes := [], wildcardSplat := none, splatSegments := none }

/-- The multi-candidate phase of getMatchingPathsInternal (everything
after the single-survivor early return). -/
def multiCandidatePhase (pathsArg : List MatchingPath) (realPath : String)
    (paths : List MatchingPath) : Option (List String) × List MatchingPath :=
  splatCorrectionAndFinish pathsArg realPath (groupsAccOf paths realPath)
    (getMaybeFinalPaths (definiteMatchesOf paths) (groupsAccOf paths realPath).xformedMaybes)

/-- router.getMatchingPathsInternal: from the matched candidates and the
request path to (splat segments, root-to-leaf chain).  A nil splat
pointer is modeled as none. -/
def getMatchingPathsInternal (pathsArg : List MatchingPath) (realPath : String) :
    Option (List String) × List MatchingPath :=
  let paths := dropUltimateCatch (filterBySegmentLength pathsArg realPath)
  if paths.length = 1 then
    (if (paths.headD zeroMatchingPath).PathType = PathTypeUltimateCatch then
       some (getBaseSplatSegments realPath)
     else none,
     paths)
  else multiCandidatePhase pathsArg realPath paths

/-! ## The resolver slice of getMatchingPathData (router.go lines 947-974) -/

/-- The cache-miss resolution computed by getMatchingPathData: matched
chain, import URLs, splat segments, and the params of the deepest chain
entry (the Go code takes lastPath.Params of the zero MatchingPath when
the chain is empty). -/
structure RouteResolution where
  matchingPaths : List MatchingPath
  importURLs : List String
  splatSegments : Option (List String)
  params : List (String × String)
deriving DecidableEq, Repr

/-- The resolver part of router.getMatchingPathData on a cache miss:
normalize the path, match all registered patterns, resolve the chain,
and record import URLs and the deepest entry's params. -/
def resolveRoute (instancePaths : List RoutePath) (rawPath : String) : RouteResolution :=
  let realPath := normalizePath rawPath
  let initialMatchingPaths := getInitialMatchingPaths instancePaths realPath
  let sp := getMatchingPathsInternal initialMatchingPaths realPath
  let matchingPaths := sp.2
  { matchingPaths := matchingPaths
    importURLs := matchingPaths.map (fun p => "/" ++ p.OutPath)
    splatSegments := sp.1
    params := ((matchingPaths.getLast?).getD zeroMatchingPath).Params }

/-! ## Data orchestration (router.go lines 947-1104)

The loader/action phase of getMatchingPathData.  A chain entry is
modeled by which of its optional data functions are present; user
loader and action return values are inputs (a pair of Option String:
data and error, none modeling a nil interface).  Go runtime panics of
this phase are surfaced explicitly. -/

inductive GoPanic where
  | sliceBounds
  | nilPointerDeref
deriving DecidableEq, Repr

/-- router.DecoratedPath together with the presence flags of the
DataFuncs bundle the orchestrator consults. -/
structure DecoratedPathEntry where
  hasLoader : Bool
  hasAction : Bool
  hasHead : Bool
  PathType : String
deriving DecidableEq, Repr

/-- The zero DecoratedPath{} used when the chain is empty. -/
def zeroDecoratedPathEntry : DecoratedPathEntry :=
  { hasLoader := false, hasAction := false, hasHead := false, PathType := "" }

/-- Go slice expression l[:k] with its bounds check: a negative high
bound or one beyond the length panics. -/
def goSliceTo {α : Type} (l : List α) (k : Int) : Except GoPanic (List α) :=
  if 0 ≤ k ∧ k ≤ (l.length : Int) then Except.ok (l.take k.toNat) else Except.error GoPanic.sliceBounds

/-- The accepted mutating methods map. -/
def acceptedMethod (m : String) : Bool :=
  m = "POST" ∨ m = "PUT" ∨ m = "PATCH" ∨ m = "DELETE"

/-- router.getActionData, called only when the deepest entry has an
Action: any non-mutating method yields the "method not allowed" error;
otherwise the user action's own (data, error) result is returned. -/
def getActionData (method : String) (actionResult : Option String × Option String) :
    Option String × Option String :=
  if ¬ acceptedMethod method then (none, some "method not allowed") else actionResult

/-- router.findClosestParentErrorBoundaryIndex: scan from index i toward
the root for the first non-nil entry, returning len-1-i for the found
index, or -1 if none qualifies.  The Go argument is the loadersData
slice. -/
def findClosestParentErrorBoundaryIndex (xs : List (Option String)) : Nat → Int
  | 0 => if (xs.getD 0 none).isSome then (xs.length : Int) - 1 else -1
  | i + 1 =>
    if (xs.getD (i + 1) none).isSome then (xs.length : Int) - 1 - (i + 1)
    else findClosestParentErrorBoundaryIndex xs i

/-- The outputs of the error-reduction block (lines 1008-1034):
thereAreErrors, outermostErrorIndex and the reported
closestParentErrorBoundaryIndex (sentinel -2 when no errors). -/
structure ErrorReductionOut where
  thereAreErrors : Bool
  outermostErrorIndex : Int
  closestParentErrorBoundaryIndex : Int
deriving DecidableEq, Repr

/-- The first-error scan (root to leaf): index of the first non-nil
entry, as the initial loop of the error-reduction block computes it. -/
def firstSomeIdx : List (Option String) → Option Nat
  | [] => none
  | e :: rest => if e.isSome then some 0 else (firstSomeIdx rest).map (fun j => j + 1)

/-- The error-reduction block of getMatchingPathData: first loader error
index (root to leaf), the action-error merge, and the boundary scan
with its index arithmetic, exactly as in the source. -/
def errorReduction (loadersData errorsList : List (Option String))
    (actionDataError : Option String) : ErrorReductionOut :=
  let firstErr := firstSomeIdx errorsList
  let thereAreErrors := firstErr.isSome
  let outermostErrorIndex : Int := match firstErr with | some i => (i : Int) | none => -1
  let thereAreErrors2 := if actionDataError.isSome then true else thereAreErrors
  let outermostErrorIndex2 : Int :=
    if actionDataError.isSome then
      let actionDataErrorIndex : Int := (loadersData.length : Int) - 1
      if actionDataErrorIndex < outermostErrorIndex then actionDataErrorIndex
      else outermostErrorIndex
    else outermostErrorIndex
  let closest : Int :=
    if thereAreErrors2 ∧ outermostErrorIndex2 ≠ -1 then
      let c := findClosestParentErrorBoundaryIndex loadersData outermostErrorIndex2.toNat
      if c ≠ -1 then outermostErrorIndex2 - c else c
    else -2
  { thereAreErrors := thereAreErrors2, outermostErrorIndex := outermostErrorIndex2,
    closestParentErrorBoundaryIndex := closest }

/-- The four truncations computed by the error branch (lines 1048-1055),
in source order: matching paths and import URLs are cut at
outermostErrorIndex+1, active heads and loaders data at
outermostErrorIndex. -/
def truncateOnError (matchingPaths : List DecoratedPathEntry)
    (activeHeads : List (Option Unit)) (loadersData : List (Option String))
    (importURLs : List String) (outermostErrorIndex : Int) :
    Except GoPanic
      (List DecoratedPathEntry × List (Option Unit) × List (Option String) × List String) :=
  match goSliceTo matchingPaths (outermostErrorIndex + 1) with
  | Except.error p => Except.error p
  | Except.ok locMatchingPaths =>
    match goSliceTo activeHeads outermostErrorIndex with
    | Except.error p => Except.error p
    | Except.ok locActiveHeads =>
      match goSliceTo loadersData outermostErrorIndex with
      | Except.error p => Except.error p
      | Except.ok locLoadersData =>
        match goSliceTo importURLs (outermostErrorIndex + 1) with
        | Except.error p => Except.error p
        | Except.ok locImportURLs =>
          Except.ok (locMatchingPaths, locActiveHeads, locLoadersData, locImportURLs)

/-- The response value of getMatchingPathData (router.ActivePathData
restricted to the fields this phase computes). -/
structure ActivePathDataOut where
  MatchingPaths : List DecoratedPathEntry
  LoadersData : List (Option String)
  ImportURLs : List String
  OutermostErrorBoundaryIndex : Int
  ActionData : List (Option String)
  ActiveHeads : List (Option Unit)
deriving DecidableEq, Repr

/-- The per-position loader data: a present loader's returned data,
nil otherwise. -/
def loadersDataOf (decorated : List DecoratedPathEntry)
    (loaderResults : Nat → Option String × Option String) : List (Option String) :=
  (List.range decorated.length).map (fun i =>
    if (decorated.getD i zeroDecoratedPathEntry).hasLoader then (loaderResults i).1 else none)

/-- The per-position loader errors: a present loader's returned error,
nil otherwise. -/
def loaderErrorsOf (decorated : List DecoratedPathEntry)
    (loaderResults : Nat → Option String × Option String) : List (Option String) :=
  (List.range decorated.length).map (fun i =>
    if (decorated.getD i zeroDecoratedPathEntry).hasLoader then (loaderResults i).2 else none)

/-- The activeHeads list: the entries' Head functions (present or nil). -/
def activeHeadsOf (decorated : List DecoratedPathEntry) : List (Option Unit) :=
  decorated.map (fun e => if e.hasHead then some () else (none : Option Unit))

/-- The (actionData, actionDataError) pair of getMatchingPathData: the
deepest entry's action is consulted only if it exists (the empty chain
yields the zero DecoratedPath, which has none). -/
def actionPairOf (decorated : List DecoratedPathEntry) (method : String)
    (actionResult : Option String × Option String) : Option String × Option String :=
  if ((decorated.getLast?).getD zeroDecoratedPathEntry).hasAction then
    getActionData method actionResult
  else (none, none)

/-- The error-reduction output for a given request, from its chain and
the user loader/action results. -/
def reductionOf (decorated : List DecoratedPathEntry) (method : String)
    (loaderResults : Nat → Option String × Option String)
    (actionResult : Option String × Option String) : ErrorReductionOut :=
  errorReduction (loadersDataOf decorated loaderResults)
    (loaderErrorsOf decorated loaderResults) (actionPairOf decorated method actionResult).2

/-- The loader/action/assembly phase of router.getMatchingPathData on an
already-resolved chain.  `loaderResults i` is the (data, error) pair the
user loader at chain position i would return; entries without a loader
yield (nil, nil).  `actionResult` is the user action's return, consulted
only for the deepest entry when it has an action.  In the error branch
the ActivePathData zero value's nil ActionData pointer is written
through (line 1057), which is a nil-pointer dereference. -/
def orchestrate (decorated : List DecoratedPathEntry) (importURLs : List String)
    (method : String) (loaderResults : Nat → Option String × Option String)
    (actionResult : Option String × Option String) : Except GoPanic ActivePathDataOut :=
  if (reductionOf decorated method loaderResults actionResult).thereAreErrors then
    match truncateOnError decorated (activeHeadsOf decorated)
        (loadersDataOf decorated loaderResults) importURLs
        (reductionOf decorated method loaderResults actionResult).outermostErrorIndex with
    | Except.error p => Except.error p
    | Except.ok _ => Except.error GoPanic.nilPointerDeref
  else
    Except.ok
      { MatchingPaths := decorated, LoadersData := loadersDataOf decorated loaderResults,
        ImportURLs := importURLs,
        OutermostErrorBoundaryIndex :=
          (reductionOf decorated method loaderResults actionResult).closestParentErrorBoundaryIndex,
        ActionData :=
          if importURLs.length > 0 then
            List.replicate (importURLs.length - 1) (none : Option String) ++
              [(actionPairOf decorated method actionResult).1]
          else [],
        ActiveHeads := activeHeadsOf decorated }

/-! ## Head blocks: stableHash and dedupeHeadBlocks (router.go lines 1185-1236) -/

/-- router.HeadBlock; the attributes map is an association list. -/
structure HeadBlock where
  Tag : String
  Attributes : List (String × String)
  Title : String
deriving DecidableEq, Repr

/-- Byte-wise lexicographic comparison of character lists (Go string
ordering restricted to ASCII data). -/
def lexLeB : List Char → List Char → Bool
  | [], _ => true
  | _ :: _, [] => false
  | a :: as, b :: bs =>
    if a.toNat < b.toNat then true
    else if b.toNat < a.toNat then false
    else lexLeB as bs

/-- Go string ordering `a <= b`. -/
def strLeB (a b : String) : Bool :=
  lexLeB a.data b.data

/-- Ordered insertion for sort.Strings. -/
def insertStrLe (x : String) : List String → List String
  | [] => [x]
  | y :: ys => if strLeB x y then x :: y :: ys else y :: insertStrLe x ys

/-- Go sort.Strings (ascending; duplicates preserved). -/
def sortStrings (l : List String) : List String :=
  l.foldr insertStrLe []

/-- The "key=value" attribute parts of stableHash. -/
def attrParts (attrs : List (String × String)) : List String :=
  attrs.map (fun kv => kv.1 ++ "=" ++ kv.2)

/-- The "&"-joined write loop of stableHash. -/
def joinAmp : List String → String
  | [] => ""
  | h :: t => t.foldl (fun acc s => acc ++ "&" ++ s) h

/-- router.stableHash: tag, "|", then the sorted attribute parts
"&"-joined. -/
def stableHash (b : HeadBlock) : String :=
  b.Tag ++ "|" ++ joinAmp (sortStrings (attrParts b.Attributes))

/-- A block the dedup loop treats as a title (`len(block.Title) > 0`). -/
def isTitleBlock (b : HeadBlock) : Bool :=
  b.Title.length > 0

/-- The meta-description condition of the second branch:
`block.Tag == "meta" && block.Attributes["name"] == "description"`
(a missing key reads as the empty string in Go). -/
def isDescriptionCondition (b : HeadBlock) : Bool :=
  b.Tag = "meta" ∧ (mapGet b.Attributes "name").getD "" = "description"

/-- A block handled by the description slot (not a title, and meeting
the description condition). -/
def isDescriptionBlock (b : HeadBlock) : Bool :=
  !(isTitleBlock b) && isDescriptionCondition b

/-- A block handled by the generic hash-dedup branch. -/
def isOtherBlock (b : HeadBlock) : Bool :=
  !(isTitleBlock b) && !(isDescriptionCondition b)

/-- The mutable state of the dedup loop: seen hash keys, the output
being built, and the reserved title/description slot positions. -/
structure DedupState where
  uniqueKeys : List String
  dedupedBlocks : List HeadBlock
  titleIdx : Option Nat
  descriptionIdx : Option Nat
deriving DecidableEq, Repr

/-- One iteration of the dedup loop: titles and descriptions are
singleton slots (first occurrence reserves, later ones overwrite in
place); everything else dedupes by stableHash, first occurrence kept. -/
def dedupeStep (s : DedupState) (b : HeadBlock) : DedupState :=
  if isTitleBlock b then
    match s.titleIdx with
    | none =>
      { s with titleIdx := some s.dedupedBlocks.length, dedupedBlocks := s.dedupedBlocks ++ [b] }
    | some i => { s with dedupedBlocks := s.dedupedBlocks.set i b }
  else if isDescriptionCondition b then
    match s.descriptionIdx with
    | none =>
      { s with descriptionIdx := some s.dedupedBlocks.length,
               dedupedBlocks := s.dedupedBlocks ++ [b] }
    | some i => { s with dedupedBlocks := s.dedupedBlocks.set i b }
  else
    let key := stableHash b
    if s.uniqueKeys.contains key then s
    else { s with uniqueKeys := s.uniqueKeys ++ [key], dedupedBlocks := s.dedupedBlocks ++ [b] }

/-- router.dedupeHeadBlocks. -/
def dedupeHeadBlocks (blocks : List HeadBlock) : List HeadBlock :=
  (blocks.foldl dedupeStep
    { uniqueKeys := [], dedupedBlocks := [], titleIdx := none, descriptionIdx := none }).dedupedBlocks

/-- Modelled from the spec: first-occurrence deduplication by block
identity (tag + sorted attribute pairs, i.e. stableHash): a block is
kept iff its identity has not been seen before it. -/
def specFirstOccurrenceDedup (seen : List String) : List HeadBlock → List HeadBlock
  | [] => []
  | b :: bs =>
    if seen.contains (stableHash b) then specFirstOccurrenceDedup seen bs
    else b :: specFirstOccurrenceDedup (seen ++ [stableHash b]) bs

/-- The singleton of the last element of a list (empty if there is
none): the shape of the title and description slots. -/
def lastSingleton (l : List HeadBlock) : List HeadBlock :=
  match l.getLast? with
  | none => []
  | some b => [b]

/-- A reserved singleton slot of the dedup loop: when the index is
unset no processed block fell in the slot; when set, it points at the
unique slot-satisfying position of the output. -/
def SlotInv (p : HeadBlock → Bool) (dedup : List HeadBlock) (idx : Option Nat)
    (processedFiltered : List HeadBlock) : Prop :=
  (idx = none → processedFiltered = []) ∧
  (∀ i, idx = some i → ∃ old, dedup[i]? = some old ∧ p old = true ∧
      ∀ j q, j ≠ i → dedup[j]? = some q → p q = false)

/-- The invariant the dedup loop maintains over the processed prefix:
the output's title and description sub-sequences are singleton slots
holding the last processed title/description, the other blocks are the
first occurrences by stableHash, uniqueKeys tracks exactly the hashes
of processed other-blocks, and the two slot indices point at the unique
title and description positions of the output. -/
def DedupInv (processed : List HeadBlock) (s : DedupState) : Prop :=
  s.dedupedBlocks.filter isTitleBlock = lastSingleton (processed.filter isTitleBlock) ∧
  s.dedupedBlocks.filter isDescriptionBlock =
    lastSingleton (processed.filter isDescriptionBlock) ∧
  s.dedupedBlocks.filter isOtherBlock =
    specFirstOccurrenceDedup [] (processed.filter isOtherBlock) ∧
  (∀ k, s.uniqueKeys.contains k = true ↔
    ∃ b, b ∈ processed ∧ isOtherBlock b = true ∧ stableHash b = k) ∧
  SlotInv isTitleBlock s.dedupedBlocks s.titleIdx (processed.filter isTitleBlock) ∧
  SlotInv isDescriptionBlock s.dedupedBlocks s.descriptionIdx
    (processed.filter isDescriptionBlock)

/-! ## Spec-side comparison definitions

These follow the words of the specification (not the source) and exist
only to be compared against the embedded source functions. -/

/-- Modelled from the spec: per-segment match weights, "exact literal=3,
dynamic param=2, splat=1" (a segment equal to its counterpart is an
exact literal; the splat constant weighs 1; any other leading-colon
segment weighs 2). -/
def specSegmentWeight (p r : String) : Nat :=
  if p = r then 3 else if p = SplatSegment then 1 else if strHasPrefixChar p ':' then 2 else 0

/-- Modelled from the spec: the total score as "the sum over pattern
segments" of the per-segment weights against the corresponding path
segments (an exhausted path contributes empty counterparts). -/
def specScoreSum : List String → List String → Nat
  | [], _ => 0
  | p :: ps, [] => specSegmentWeight p "" + specScoreSum ps []
  | p :: ps, r :: rs => specSegmentWeight p r + specScoreSum ps rs

/-- The dynamic parameter names of a pattern's segment list: the keys
(text after the colon) of its leading-colon segments, except the splat
key "catch*". -/
def dynamicParamNames (ps : List String) : List String :=
  (ps.filter (fun p => strHasPrefixChar p ':' && decide (strTail p ≠ "catch*"))).map strTail

/-! ## Concrete route tables used by individual claims -/

/-- The registered patterns of claim C1, in the matcher-level form
produced by the route-table builder (walkPages): a dynamic-route source
segment `$name` becomes `:name`, and an `_index` leaf becomes an empty
trailing segment that is dropped from the pattern string. -/
def tigerRoutes : List RoutePath :=
  [ { Pattern := "/tiger", Segments := ["tiger"], PathType := "static-layout", OutPath := "tiger.js" },
    { Pattern := "/tiger", Segments := ["tiger", ""], PathType := "index", OutPath := "tiger_index.js" },
    { Pattern := "/tiger/:tiger_id", Segments := ["tiger", ":tiger_id"],
      PathType := "dynamic-layout", OutPath := "tiger_id.js" },
    { Pattern := "/tiger/:tiger_id", Segments := ["tiger", ":tiger_id", ""],
      PathType := "index", OutPath := "tiger_id_index.js" } ]

/-- A route table where an ancestor (the dynamic-layout `/:x`) binds a
param that the deepest chain entry (the static `/a/b`) does not bind:
used to test the params-merge claim C7. -/
def paramsMergeRoutes : List RoutePath :=
  [ { Pattern := "/:x", Segments := [":x"], PathType := "dynamic-layout", OutPath := "x.js" },
    { Pattern := "/a/b", Segments := ["a", "b"], PathType := "static-layout", OutPath := "ab.js" } ]

/-- A route table with a single root-level dynamic pattern, used against
the root path "/" for the segment-count filtering claim C8. -/
def rootDynamicRoutes : List RoutePath :=
  [ { Pattern := "/:a", Segments := [":a"], PathType := "dynamic-layout", OutPath := "a.js" } ]

/-- A route table containing only the ultimate catch-all, used for the
C5 witness. -/
def catchOnlyRoutes : List RoutePath :=
  [ { Pattern := "/:catch*", Segments := [":catch*"], PathType := "ultimate-catch", OutPath := "c.js" } ]

/-- A head block with attribute pairs in one order (C9 witness input). -/
def headBlockA : HeadBlock :=
  { Tag := "meta", Attributes := [("name", "author"), ("content", "sam")], Title := "" }

/-- The same head block with its attribute pairs swapped (C9 witness input). -/
def headBlockB : HeadBlock :=
  { Tag := "meta", Attributes := [("content", "sam"), ("name", "author")], Title := "" }

/-- A concrete head-block list exercising all three dedup categories
(two titles, two descriptions, a duplicated generic block). -/
def demoHeadBlocks : List HeadBlock :=
  [ { Tag := "title", Attributes := [], Title := "root" },
    headBlockA,
    { Tag := "meta", Attributes := [("name", "description"), ("content", "d1")], Title := "" },
    { Tag := "title", Attributes := [], Title := "leaf" },
    headBlockB,
    { Tag := "meta", Attributes := [("name", "description"), ("content", "d2")], Title := "" } ]


/-! ## Theorems -/

theorem firstSomeIdx_lt_length : ∀ (l : List (Option String)) (j : Nat),
    firstSomeIdx l = some j → j < l.length := by
  intro l
  induction l with
  | nil => intro j h; simp [firstSomeIdx] at h
  | cons e rest ih =>
    intro j h
    simp only [firstSomeIdx] at h
    by_cases he : e.isSome
    · rw [if_pos he] at h
      injection h with h2
      simp only [List.length_cons]
      omega
    · rw [if_neg he] at h
      cases hrec : firstSomeIdx rest with
      | none => rw [hrec] at h; exact absurd h (by simp)
      | some k =>
        rw [hrec] at h
        have hk := ih k hrec
        have h3 : k + 1 = j := by
          have h5 : (Option.map (fun j => j + 1) (some k)) = some (k + 1) := rfl
          rw [h5] at h
          injection h
        simp only [List.length_cons]
        omega

theorem firstSomeIdx_isSome_of_mem : ∀ (l : List (Option String)) (i : Nat) (x : Option String),
    l.get? i = some x → x.isSome = true → (firstSomeIdx l).isSome = true := by
  intro l
  induction l with
  | nil => intro i x h _; simp at h
  | cons e rest ih =>
    intro i x h hx
    simp only [firstSomeIdx]
    by_cases he : e.isSome
    · rw [if_pos he]; rfl
    · rw [if_neg he]
      cases i with
      | zero =>
        rw [List.get?_cons_zero] at h
        injection h with h2
        rw [h2] at he
        exact absurd hx he
      | succ i0 =>
        rw [List.get?_cons_succ] at h
        have h4 := ih i0 x h hx
        cases hrec : firstSomeIdx rest with
        | none => rw [hrec] at h4; exact absurd h4 (by simp)
        | some k => rfl

theorem truncateOnError_ok (mps : List DecoratedPathEntry) (heads : List (Option Unit))
    (lds : List (Option String)) (urls : List String) (o : Nat)
    (h1 : o < mps.length) (h2 : o ≤ heads.length) (h3 : o ≤ lds.length) (h4 : o < urls.length) :
    truncateOnError mps heads lds urls (o : Int) =
      Except.ok (mps.take (o + 1), heads.take o, lds.take o, urls.take (o + 1)) := by
  have c1 : 0 ≤ (o : Int) + 1 ∧ (o : Int) + 1 ≤ (mps.length : Int) := by constructor <;> omega
  have c2 : 0 ≤ (o : Int) ∧ (o : Int) ≤ (heads.length : Int) := by constructor <;> omega
  have c3 : 0 ≤ (o : Int) ∧ (o : Int) ≤ (lds.length : Int) := by constructor <;> omega
  have c4 : 0 ≤ (o : Int) + 1 ∧ (o : Int) + 1 ≤ (urls.length : Int) := by constructor <;> omega
  have e1 : ((o : Int) + 1).toNat = o + 1 := by omega
  have e0 : ((o : Int)).toNat = o := by omega
  simp only [truncateOnError, goSliceTo, if_pos c1, if_pos c2, if_pos c3, if_pos c4, e1, e0]

theorem errorReduction_of_firstErr (lds errs : List (Option String)) (aerr : Option String)
    (j : Nat) (hj : firstSomeIdx errs = some j) (hjl : j < lds.length) :
    (errorReduction lds errs aerr).thereAreErrors = true ∧
    (errorReduction lds errs aerr).outermostErrorIndex = (j : Int) := by
  unfold errorReduction
  rw [hj]
  cases aerr with
  | none => simp
  | some a =>
    refine ⟨by simp, ?_⟩
    simp only [Option.isSome_some, if_true]
    rw [if_neg]
    omega

/-- C4 (amended): whenever some chain entry with a loader gets a non-nil
loader error, the error-assembly branch of getMatchingPathData writes
through the never-initialized ActionData pointer and panics with a nil
pointer dereference instead of returning a response.  (The action-only
error case instead panics earlier, slicing activeHeads to index -1; see
the counterexample.) -/
theorem C4_amended_test (decorated : List DecoratedPathEntry) (importURLs : List String)
    (method : String) (loaderResults : Nat → Option String × Option String)
    (actionResult : Option String × Option String) (i : Nat)
    (hi : i < decorated.length)
    (hl : (decorated.getD i zeroDecoratedPathEntry).hasLoader = true)
    (he : ((loaderResults i).2).isSome = true)
    (hlen : importURLs.length = decorated.length) :
    orchestrate decorated importURLs method loaderResults actionResult =
      Except.error GoPanic.nilPointerDeref := by
  have hget : (loaderErrorsOf decorated loaderResults).get? i = some ((loaderResults i).2) := by
    unfold loaderErrorsOf
    rw [List.get?_map, List.get?_range hi]
    show some (if (decorated.getD i zeroDecoratedPathEntry).hasLoader then (loaderResults i).2
      else none) = some ((loaderResults i).2)
    rw [if_pos hl]
  have hsome := firstSomeIdx_isSome_of_mem _ i _ hget he
  obtain ⟨j, hj⟩ := Option.isSome_iff_exists.mp hsome
  have hjl : j < (loaderErrorsOf decorated loaderResults).length :=
    firstSomeIdx_lt_length _ j hj
  have hlerr : (loaderErrorsOf decorated loaderResults).length = decorated.length := by
    unfold loaderErrorsOf; simp
  have hlld : (loadersDataOf decorated loaderResults).length = decorated.length := by
    unfold loadersDataOf; simp
  have hheads : (activeHeadsOf decorated).length = decorated.length := by
    unfold activeHeadsOf; simp
  have hred := errorReduction_of_firstErr (loadersDataOf decorated loaderResults)
    (loaderErrorsOf decorated loaderResults)
    (actionPairOf decorated method actionResult).2 j hj (by omega)
  unfold orchestrate reductionOf
  rw [hred.1, hred.2]
  rw [truncateOnError_ok decorated (activeHeadsOf decorated)
    (loadersDataOf decorated loaderResults) importURLs j (by omega) (by omega) (by omega) (by omega)]
  simp

theorem mem_dropUltimateCatch {x : MatchingPath} {ps : List MatchingPath}
    (h : x ∈ dropUltimateCatch ps) : x ∈ ps := by
  unfold dropUltimateCatch at h
  split at h
  · exact (List.mem_filter.mp h).1
  · exact h

theorem dropUltimateCatch_isolates {x : MatchingPath} {ps : List MatchingPath}
    (hx : x ∈ dropUltimateCatch ps) (hu : x.PathType = PathTypeUltimateCatch) :
    (dropUltimateCatch ps).length = 1 := by
  unfold dropUltimateCatch at hx ⊢
  split at hx
  · have hpred := (List.mem_filter.mp hx).2
    rw [hu] at hpred
    simp at hpred
  · rename_i h
    have h1 : 0 < ps.length := List.length_pos.mpr (by rintro rfl; simp at hx)
    split
    · rename_i h2; exact absurd h2 h
    · omega

theorem winnerIndexCandidate_mem {S : List MatchingPath} {ic : Option MatchingPath}
    {y : MatchingPath} (hy : y ∈ S) (h2 : ∀ c, ic = some c → c ∈ S) :
    ∀ c, winnerIndexCandidate ic y = some c → c ∈ S := by
  intro c hc
  unfold winnerIndexCandidate at hc
  split at hc
  · cases ic with
    | none => injection hc with h; rw [← h]; exact hy
    | some c0 =>
      simp only at hc
      split at hc
      · injection hc with h; rw [← h]; exact hy
      · injection hc with h; rw [← h]; exact h2 c0 rfl
  · exact h2 c hc

theorem winnerFold_mem (S : List MatchingPath) :
    ∀ (l : List MatchingPath) (st : MatchingPath × Nat × Option MatchingPath),
    st.1 ∈ S → (∀ c, st.2.2 = some c → c ∈ S) → (∀ y ∈ l, y ∈ S) →
    (l.foldl winnerStep st).1 ∈ S ∧ ∀ c, (l.foldl winnerStep st).2.2 = some c → c ∈ S := by
  intro l
  induction l with
  | nil => intro st h1 h2 _; exact ⟨h1, h2⟩
  | cons y rest ih =>
    intro st h1 h2 hl
    have hy : y ∈ S := hl y (List.mem_cons_self _ _)
    have hrest : ∀ z ∈ rest, z ∈ S := fun z hz => hl z (List.mem_cons_of_mem _ hz)
    refine ih (winnerStep st y) ?_ ?_ hrest
    · unfold winnerStep
      split
      · exact hy
      · exact h1
    · intro c hc
      unfold winnerStep at hc
      split at hc <;> exact winnerIndexCandidate_mem hy h2 c hc

theorem groupWinner_mem {S : List MatchingPath} {group : List MatchingPath} {g0 : MatchingPath}
    (hg0 : g0 ∈ S) (hg : ∀ y ∈ group, y ∈ S) : groupWinner group g0 ∈ S := by
  unfold groupWinner
  have hw := winnerFold_mem S group (g0, g0.Score, none) hg0 (by intro c hc; simp at hc) hg
  cases hic : (group.foldl winnerStep (g0, g0.Score, none)).2.2 with
  | none => simpa [hic] using hw.1
  | some c => simpa [hic] using hw.2 c hic

theorem wildcardSplatUpdate_inv {old splat : Option MatchingPath}
    (h2 : ∀ w, old = some w → w.PathType = PathTypeNonUltimateSplat)
    (hs : ∀ s, splat = some s → s.PathType = PathTypeNonUltimateSplat) :
    ∀ w, wildcardSplatUpdate old splat = some w → w.PathType = PathTypeNonUltimateSplat := by
  intro w hw
  unfold wildcardSplatUpdate at hw
  cases splat with
  | none => exact h2 w hw
  | some s =>
    simp only at hw
    cases old with
    | none => injection hw with h; rw [← h]; exact hs s rfl
    | some w0 =>
      simp only at hw
      split at hw
      · injection hw with h; rw [← h]; exact hs s rfl
      · injection hw with h; rw [← h]; exact h2 w0 rfl

theorem findNonUltimateSplat_type {group : List MatchingPath} {s : MatchingPath}
    (hs : findNonUltimateSplat group = some s) : s.PathType = PathTypeNonUltimateSplat := by
  unfold findNonUltimateSplat at hs
  exact of_decide_eq_true
    (@List.find?_some MatchingPath (fun p => decide (p.PathType = PathTypeNonUltimateSplat))
      s group hs)

theorem processGroup_inv (definiteMatches : List MatchingPath) (realPath : String)
    (paths : List MatchingPath) (acc : GroupAcc) (group : List MatchingPath)
    (hg : ∀ x ∈ group, x ∈ paths)
    (h1 : ∀ x ∈ acc.xformedMaybes, x ∈ paths)
    (h2 : ∀ w, acc.wildcardSplat = some w → w.PathType = PathTypeNonUltimateSplat) :
    (∀ x ∈ (processGroup definiteMatches realPath acc group).xformedMaybes, x ∈ paths) ∧
    (∀ w, (processGroup definiteMatches realPath acc group).wildcardSplat = some w →
      w.PathType = PathTypeNonUltimateSplat) := by
  cases group with
  | nil => exact ⟨h1, h2⟩
  | cons g0 rest =>
    have hg0 : g0 ∈ paths := hg g0 (List.mem_cons_self _ _)
    have hwin : groupWinner (g0 :: rest) g0 ∈ paths := groupWinner_mem hg0 hg
    constructor
    · intro x hx
      simp only [processGroup] at hx
      split at hx
      · exact h1 x hx
      · rcases List.mem_append.mp hx with hx1 | hx2
        · exact h1 x hx1
        · rw [List.mem_singleton.mp hx2]; exact hwin
    · intro w hw
      simp only [processGroup] at hw
      exact wildcardSplatUpdate_inv h2 (fun s hs => findNonUltimateSplat_type hs) w hw

theorem groupsFold_inv (definiteMatches : List MatchingPath) (realPath : String)
    (paths : List MatchingPath) :
    ∀ (gs : List (List MatchingPath)) (acc : GroupAcc),
    (∀ g ∈ gs, ∀ x ∈ g, x ∈ paths) →
    (∀ x ∈ acc.xformedMaybes, x ∈ paths) →
    (∀ w, acc.wildcardSplat = some w → w.PathType = PathTypeNonUltimateSplat) →
    (∀ x ∈ (gs.foldl (processGroup definiteMatches realPath) acc).xformedMaybes, x ∈ paths) ∧
    (∀ w, (gs.foldl (processGroup definiteMatches realPath) acc).wildcardSplat = some w →
      w.PathType = PathTypeNonUltimateSplat) := by
  intro gs
  induction gs with
  | nil => intro acc _ h1 h2; exact ⟨h1, h2⟩
  | cons g rest ih =>
    intro acc hgs h1 h2
    have hstep := processGroup_inv definiteMatches realPath paths acc g
      (hgs g (List.mem_cons_self _ _)) h1 h2
    exact ih (processGroup definiteMatches realPath acc g)
      (fun g2 hg2 => hgs g2 (List.mem_cons_of_mem _ hg2)) hstep.1 hstep.2

theorem groups_mem (definiteMatches paths : List MatchingPath) :
    ∀ g ∈ groupsBySegmentLength definiteMatches paths, ∀ x ∈ g, x ∈ paths := by
  intro g hg x hx
  unfold groupsBySegmentLength at hg
  obtain ⟨k, _, hgeq⟩ := List.mem_map.mp hg
  rw [← hgeq] at hx
  exact (List.mem_filter.mp (List.mem_filter.mp hx).1).1

theorem mem_insertByLen {x a : MatchingPath} :
    ∀ {l : List MatchingPath}, x ∈ insertByLen a l → x = a ∨ x ∈ l := by
  intro l
  induction l with
  | nil => intro h; simp [insertByLen] at h; exact Or.inl h
  | cons y ys ih =>
    intro h
    unfold insertByLen at h
    split at h
    · rcases List.mem_cons.mp h with h1 | h2
      · exact Or.inl h1
      · exact Or.inr h2
    · rcases List.mem_cons.mp h with h1 | h2
      · exact Or.inr (by rw [h1]; exact List.mem_cons_self _ _)
      · rcases ih h2 with h3 | h4
        · exact Or.inl h3
        · exact Or.inr (List.mem_cons_of_mem _ h4)

theorem mem_getMaybeFinalPaths {x : MatchingPath} {d m : List MatchingPath}
    (h : x ∈ getMaybeFinalPaths d m) : x ∈ d ++ m := by
  unfold getMaybeFinalPaths at h
  suffices hgen : ∀ (l : List MatchingPath), x ∈ l.foldr insertByLen [] → x ∈ l from hgen _ h
  intro l
  induction l with
  | nil => intro h2; simp at h2
  | cons y ys ih =>
    intro h2
    simp only [List.foldr] at h2
    rcases mem_insertByLen h2 with h3 | h4
    · rw [h3]; exact List.mem_cons_self _ _
    · exact List.mem_cons_of_mem _ (ih h4)

theorem mem_adjacencyGo : ∀ (fuel : Nat) (l : List MatchingPath) (i : Nat) (x : MatchingPath),
    x ∈ adjacencyGo fuel l i → x ∈ l := by
  intro fuel
  induction fuel with
  | zero => intro l i x h; exact h
  | succ f ih =>
    intro l i x h
    unfold adjacencyGo at h
    split at h
    · split at h
      · exact List.mem_of_mem_eraseIdx (ih _ _ _ h)
      · exact ih _ _ _ h
    · exact h

theorem mem_adjacencyFilter {l : List MatchingPath} {x : MatchingPath}
    (h : x ∈ adjacencyFilter l) : x ∈ l :=
  mem_adjacencyGo _ _ _ _ h

theorem ultimateCatchOnly_sole {pathsArg : List MatchingPath} {p : MatchingPath}
    (h : p ∈ ultimateCatchOnly pathsArg) : (ultimateCatchOnly pathsArg).length = 1 := by
  unfold ultimateCatchOnly at h ⊢
  cases hf : pathsArg.find? (fun x => decide (x.PathType = PathTypeUltimateCatch)) with
  | none => rw [hf] at h; exact (List.not_mem_nil p h).elim
  | some u => rfl

theorem splatCorrection_ultimate (pathsArg : List MatchingPath) (realPath : String)
    (acc : GroupAcc) (maybeFinal : List MatchingPath) (p : MatchingPath)
    (hmf : ∀ x ∈ maybeFinal, x.PathType ≠ PathTypeUltimateCatch)
    (hwc : ∀ w, acc.wildcardSplat = some w → w.PathType = PathTypeNonUltimateSplat)
    (hp : p ∈ (splatCorrectionAndFinish pathsArg realPath acc maybeFinal).2)
    (hu : p.PathType = PathTypeUltimateCatch) :
    (splatCorrectionAndFinish pathsArg realPath acc maybeFinal).2.length = 1 := by
  cases hL : maybeFinal.getLast? with
  | none =>
    have heq : splatCorrectionAndFinish pathsArg realPath acc maybeFinal =
        (acc.splatSegments, adjacencyFilter maybeFinal) := by
      unfold splatCorrectionAndFinish
      rw [hL]
    rw [heq] at hp
    exact absurd hu (hmf p (mem_adjacencyFilter hp))
  | some lastP =>
    by_cases hneed : weNeedADifferentSplat lastP
    · cases hws : acc.wildcardSplat with
      | some w =>
        have heq : splatCorrectionAndFinish pathsArg realPath acc maybeFinal =
            (some (getSplatSegmentsFromWinningPath w realPath),
             adjacencyFilter (maybeFinal.set (maybeFinal.length - 1) w)) := by
          simp [splatCorrectionAndFinish, hL, hneed, hws]
        rw [heq] at hp
        rcases List.mem_or_eq_of_mem_set (mem_adjacencyFilter hp) with h1 | h2
        · exact absurd hu (hmf p h1)
        · have hwt := hwc w hws
          rw [← h2] at hwt
          rw [hu] at hwt
          exact absurd hwt (by decide)
      | none =>
        have heq : splatCorrectionAndFinish pathsArg realPath acc maybeFinal =
            (some (getBaseSplatSegments realPath), ultimateCatchOnly pathsArg) := by
          simp [splatCorrectionAndFinish, hL, hneed, hws]
        rw [heq] at hp ⊢
        exact ultimateCatchOnly_sole hp
    · have heq : splatCorrectionAndFinish pathsArg realPath acc maybeFinal =
          (acc.splatSegments, adjacencyFilter maybeFinal) := by
        simp [splatCorrectionAndFinish, hL, hneed]
      rw [heq] at hp
      exact absurd hu (hmf p (mem_adjacencyFilter hp))

theorem multiCandidatePhase_ultimate (pathsArg : List MatchingPath) (realPath : String)
    (paths : List MatchingPath) (p : MatchingPath)
    (hclean : ∀ x ∈ paths, x.PathType ≠ PathTypeUltimateCatch)
    (hp : p ∈ (multiCandidatePhase pathsArg realPath paths).2)
    (hu : p.PathType = PathTypeUltimateCatch) :
    (multiCandidatePhase pathsArg realPath paths).2.length = 1 := by
  have hacc := groupsFold_inv (definiteMatchesOf paths) realPath paths
    (groupsBySegmentLength (definiteMatchesOf paths) paths)
    { xformedMaybes := [], wildcardSplat := none, splatSegments := none }
    (groups_mem (definiteMatchesOf paths) paths)
    (by intro x hx; exact absurd hx (List.not_mem_nil x))
    (by intro w hw; exact absurd hw (by simp))
  have hmf : ∀ x ∈ getMaybeFinalPaths (definiteMatchesOf paths)
      (groupsAccOf paths realPath).xformedMaybes, x.PathType ≠ PathTypeUltimateCatch := by
    intro x hx
    rcases List.mem_append.mp (mem_getMaybeFinalPaths hx) with h1 | h2
    · exact hclean x (List.mem_filter.mp h1).1
    · exact hclean x (hacc.1 x h2)
  have hwc : ∀ w, (groupsAccOf paths realPath).wildcardSplat = some w →
      w.PathType = PathTypeNonUltimateSplat := hacc.2
  exact splatCorrection_ultimate pathsArg realPath (groupsAccOf paths realPath)
    (getMaybeFinalPaths (definiteMatchesOf paths) (groupsAccOf paths realPath).xformedMaybes)
    p hmf hwc hp hu

/-- C5: when more than one candidate survives segment-count filtering,
the ultimate-catch pattern is dropped from the candidates; consequently,
for every pattern set and request path, an ultimate-catch path appears in
the resolved chain only as its sole entry. -/
theorem C5_test :
    (∀ (pathsArg : List MatchingPath) (realPath : String),
      1 < (filterBySegmentLength pathsArg realPath).length →
      ∀ x ∈ dropUltimateCatch (filterBySegmentLength pathsArg realPath),
        x.PathType ≠ PathTypeUltimateCatch) ∧
    (∀ (pathsArg : List MatchingPath) (realPath : String) (p : MatchingPath),
      p ∈ (getMatchingPathsInternal pathsArg realPath).2 →
      p.PathType = PathTypeUltimateCatch →
      (getMatchingPathsInternal pathsArg realPath).2.length = 1) := by
  constructor
  · intro pathsArg realPath hlen x hx hxu
    unfold dropUltimateCatch at hx
    rw [if_pos hlen] at hx
    have hx2 := (List.mem_filter.mp hx).2
    rw [hxu] at hx2
    simp at hx2
  · intro pathsArg realPath p hp hu
    unfold getMatchingPathsInternal at hp ⊢
    by_cases hlen : (dropUltimateCatch (filterBySegmentLength pathsArg realPath)).length = 1
    · rw [if_pos hlen] at hp ⊢
      exact hlen
    · rw [if_neg hlen] at hp ⊢
      have hclean : ∀ x ∈ dropUltimateCatch (filterBySegmentLength pathsArg realPath),
          x.PathType ≠ PathTypeUltimateCatch :=
        fun x hx hxu => hlen (dropUltimateCatch_isolates hx hxu)
      exact multiCandidatePhase_ultimate pathsArg realPath _ p hclean hp hu

/-- C5 witness: the sole-ultimate-catch consequence evaluated on the
one-pattern catch-all table and a miss path. -/
theorem C5_witness_test :
    ((getMatchingPathsInternal (getInitialMatchingPaths catchOnlyRoutes "/does-not-exist")
        "/does-not-exist").2).length = 1 :=
  C5_test.2 (getInitialMatchingPaths catchOnlyRoutes "/does-not-exist") "/does-not-exist"
    { Score := 1, RealSegmentsLength := 1, Segments := [":catch*"],
      PathType := "ultimate-catch", OutPath := "c.js", Params := [] }
    (by decide) (by decide)

theorem mapGet_nil (k : String) : mapGet [] k = none := rfl

theorem mapGet_mapSet_self : ∀ (m : List (String × String)) (k v : String),
    mapGet (mapSet m k v) k = some v := by
  intro m k v
  unfold mapSet
  by_cases h : m.any (fun kv => kv.1 = k)
  · rw [if_pos h]
    induction m with
    | nil => simp at h
    | cons kv rest ih =>
      by_cases hk : kv.1 = k
      · unfold mapGet
        rw [List.map_cons, if_pos hk, List.find?_cons_of_pos _ (by simp)]
        rfl
      · have h2 : rest.any (fun kv => kv.1 = k) = true := by
          rcases List.any_eq_true.mp h with ⟨x, hx, hpx⟩
          rcases List.mem_cons.mp hx with h3 | h4
          · rw [h3] at hpx; exact absurd (of_decide_eq_true hpx) hk
          · exact List.any_eq_true.mpr ⟨x, h4, hpx⟩
        have ih2 := ih h2
        unfold mapGet at ih2 ⊢
        rw [List.map_cons, if_neg hk, List.find?_cons_of_neg _ (by simp [hk])]
        exact ih2
  · rw [if_neg h]
    induction m with
    | nil =>
      unfold mapGet
      rw [List.nil_append, List.find?_cons_of_pos _ (by simp)]
      rfl
    | cons kv rest ih =>
      have hk : ¬ kv.1 = k := by
        intro hc
        exact h (List.any_eq_true.mpr ⟨kv, List.mem_cons_self _ _, decide_eq_true hc⟩)
      have h2 : ¬ rest.any (fun kv => kv.1 = k) = true := by
        intro hc
        rcases List.any_eq_true.mp hc with ⟨x, hx, hpx⟩
        exact h (List.any_eq_true.mpr ⟨x, List.mem_cons_of_mem _ hx, hpx⟩)
      have ih2 := ih h2
      unfold mapGet at ih2 ⊢
      rw [List.cons_append, List.find?_cons_of_neg _ (by simp [hk])]
      exact ih2

theorem mapGet_mapSet_other : ∀ (m : List (String × String)) (k v k' : String), k' ≠ k →
    mapGet (mapSet m k v) k' = mapGet m k' := by
  intro m k v k' hne
  unfold mapSet
  by_cases h : m.any (fun kv => kv.1 = k)
  · rw [if_pos h]
    clear h
    induction m with
    | nil => rfl
    | cons kv rest ih =>
      unfold mapGet at ih ⊢
      rw [List.map_cons]
      by_cases hk : kv.1 = k
      · rw [if_pos hk]
        rw [List.find?_cons_of_neg _ (by simp [Ne.symm hne]),
            List.find?_cons_of_neg _ (by simp [hk ▸ Ne.symm hne])]
        exact ih
      · rw [if_neg hk]
        by_cases hk' : kv.1 = k'
        · rw [List.find?_cons_of_pos _ (by simp [hk']), List.find?_cons_of_pos _ (by simp [hk'])]
        · rw [List.find?_cons_of_neg _ (by simp [hk']), List.find?_cons_of_neg _ (by simp [hk'])]
          exact ih
  · rw [if_neg h]
    clear h
    induction m with
    | nil =>
      unfold mapGet
      rw [List.nil_append, List.find?_cons_of_neg _ (by simp [Ne.symm hne])]
    | cons kv rest ih =>
      unfold mapGet at ih ⊢
      rw [List.cons_append]
      by_cases hk' : kv.1 = k'
      · rw [List.find?_cons_of_pos _ (by simp [hk']), List.find?_cons_of_pos _ (by simp [hk'])]
      · rw [List.find?_cons_of_neg _ (by simp [hk']), List.find?_cons_of_neg _ (by simp [hk'])]
        exact ih

theorem matcherScore_correspondence :
    ∀ (ps rsegs : List String) (i : Nat) (params : List (String × String)),
    (matcherLoop rsegs ps i params).1 = true →
    ps.length + i ≤ rsegs.length →
    strengthLoop true ps (rsegs.drop i) = specScoreSum ps (rsegs.drop i) := by
  intro ps
  induction ps with
  | nil => intro rsegs i params _ _; rfl
  | cons p ps' ih =>
    intro rsegs i params hm hlen
    have hi : i < rsegs.length := by
      simp only [List.length_cons] at hlen
      omega
    have hcons : rsegs.drop i = rsegs[i] :: rsegs.drop (i + 1) := List.drop_eq_getElem_cons hi
    have hget : rsegs.get? i = some rsegs[i] := by
      rw [List.get?_eq_getElem?]
      exact List.getElem?_eq_getElem hi
    have hlen' : ps'.length + (i + 1) ≤ rsegs.length := by
      simp only [List.length_cons] at hlen
      omega
    rw [hcons]
    unfold matcherLoop at hm
    by_cases h1 : rsegs.get? i = some p
    · rw [if_pos h1] at hm
      have hrp : rsegs[i] = p := by
        rw [hget] at h1
        injection h1
      unfold strengthLoop specScoreSum specSegmentWeight
      rw [hrp]
      rw [if_pos ⟨rfl, by rw [List.head?_cons]⟩]
      rw [if_pos rfl]
      have hrec := ih rsegs (i + 1) params hm hlen'
      rw [List.tail_cons, hrec]
    · have hne : ¬ rsegs[i] = p := by
        intro hc
        exact h1 (by rw [hget, hc])
      rw [if_neg h1] at hm
      by_cases h2 : p = SplatSegment
      · rw [if_pos h2] at hm
        unfold strengthLoop specScoreSum specSegmentWeight
        rw [if_neg (fun hc => hne (Option.some.inj hc.2))]
        rw [if_pos h2]
        rw [if_neg (fun hc => hne hc.symm), if_pos h2]
        have hrec := ih rsegs (i + 1) params hm hlen'
        rw [List.tail_cons, hrec]
      · by_cases h3 : strHasPrefixChar p ':' = true
        · rw [if_neg h2, if_pos h3] at hm
          unfold strengthLoop specScoreSum specSegmentWeight
          rw [if_neg (fun hc => hne (Option.some.inj hc.2))]
          rw [if_neg h2, if_pos h3]
          rw [if_neg (fun hc => hne hc.symm), if_neg h2, if_pos h3]
          have hrec := ih rsegs (i + 1) _ hm hlen'
          rw [List.tail_cons, hrec]
        · rw [if_neg h2, if_neg h3] at hm
          simp at hm

theorem dynamicParamNames_cons (p : String) (ps' : List String) :
    dynamicParamNames (p :: ps') =
      if strHasPrefixChar p ':' && decide (strTail p ≠ "catch*") then
        strTail p :: dynamicParamNames ps'
      else dynamicParamNames ps' := by
  unfold dynamicParamNames
  rw [List.filter_cons]
  split
  · rw [List.map_cons]
  · rfl

theorem catch_not_mem_dynamicParamNames : ∀ (ps : List String),
    ¬ "catch*" ∈ dynamicParamNames ps := by
  intro ps h
  unfold dynamicParamNames at h
  obtain ⟨p, hp, hs⟩ := List.mem_map.mp h
  have h2 := (List.mem_filter.mp hp).2
  rw [Bool.and_eq_true] at h2
  exact (of_decide_eq_true h2.2) hs

theorem matcherParams_correspondence :
    ∀ (ps rsegs : List String) (i : Nat) (params : List (String × String)),
    (matcherLoop rsegs ps i params).1 = true →
    ps.length + i ≤ rsegs.length →
    (dynamicParamNames ps).Nodup →
    (∀ k, k ∈ dynamicParamNames ps → mapGet params k = none) →
    (∀ j p, ps.get? j = some p → strHasPrefixChar p ':' = true → strTail p ≠ "catch*" →
        rsegs.get? (i + j) ≠ some p →
        mapGet (matcherLoop rsegs ps i params).2 (strTail p) = rsegs.get? (i + j)) ∧
    (∀ k, ¬ k ∈ dynamicParamNames ps →
        mapGet (matcherLoop rsegs ps i params).2 k = mapGet params k) := by
  intro ps
  induction ps with
  | nil =>
    intro rsegs i params _ _ _ _
    constructor
    · intro j p hj _ _ _
      exact absurd hj (by simp)
    · intro k _
      rfl
  | cons p ps' ih =>
    intro rsegs i params hm hlen hnodup hfree
    have hi : i < rsegs.length := by
      simp only [List.length_cons] at hlen
      omega
    have hget : rsegs.get? i = some rsegs[i] := by
      rw [List.get?_eq_getElem?]
      exact List.getElem?_eq_getElem hi
    have hlen' : ps'.length + (i + 1) ≤ rsegs.length := by
      simp only [List.length_cons] at hlen
      omega
    have hshift : ∀ j : Nat, i + (j + 1) = (i + 1) + j := by omega
    unfold matcherLoop at hm ⊢
    by_cases h1 : rsegs.get? i = some p
    · rw [if_pos h1] at hm ⊢
      have hsub : dynamicParamNames ps' ⊆ dynamicParamNames (p :: ps') := by
        rw [dynamicParamNames_cons]
        split
        · exact fun a ha => List.mem_cons_of_mem _ ha
        · exact fun a ha => ha
      have hnodup' : (dynamicParamNames ps').Nodup := by
        rw [dynamicParamNames_cons] at hnodup
        split at hnodup
        · exact hnodup.of_cons
        · exact hnodup
      have hrec := ih rsegs (i + 1) params hm hlen' hnodup' (fun k hk => hfree k (hsub hk))
      constructor
      · intro j q hj hcolon hcatch hne
        cases j with
        | zero =>
          rw [List.get?_cons_zero] at hj
          injection hj with hj2
          rw [hj2] at h1
          rw [Nat.add_zero] at hne
          exact absurd h1 hne
        | succ j0 =>
          rw [List.get?_cons_succ] at hj
          rw [hshift j0]
          exact hrec.1 j0 q hj hcolon hcatch (by rw [← hshift j0]; exact hne)
      · intro k hk
        exact hrec.2 k (fun hk2 => hk (hsub hk2))
    · rw [if_neg h1] at hm ⊢
      by_cases h2 : p = SplatSegment
      · rw [if_pos h2] at hm ⊢
        have hpnames : dynamicParamNames (p :: ps') = dynamicParamNames ps' := by
          rw [dynamicParamNames_cons, if_neg]
          intro hc
          rw [Bool.and_eq_true] at hc
          have h3 := of_decide_eq_true hc.2
          rw [h2] at h3
          exact h3 rfl
        rw [hpnames] at hnodup hfree
        have hrec := ih rsegs (i + 1) params hm hlen' hnodup hfree
        constructor
        · intro j q hj hcolon hcatch hne
          cases j with
          | zero =>
            rw [List.get?_cons_zero] at hj
            injection hj with hj2
            rw [← hj2, h2] at hcatch
            exact absurd rfl hcatch
          | succ j0 =>
            rw [List.get?_cons_succ] at hj
            rw [hshift j0]
            exact hrec.1 j0 q hj hcolon hcatch (by rw [← hshift j0]; exact hne)
        · intro k hk
          exact hrec.2 k (by rw [hpnames] at hk; exact hk)
      · by_cases h3 : strHasPrefixChar p ':' = true
        · rw [if_neg h2, if_pos h3] at hm ⊢
          by_cases h4 : strTail p = "catch*"
          · rw [if_pos h4] at hm ⊢
            have hpnames : dynamicParamNames (p :: ps') = dynamicParamNames ps' := by
              rw [dynamicParamNames_cons, if_neg]
              intro hc
              rw [Bool.and_eq_true] at hc
              exact (of_decide_eq_true hc.2) h4
            rw [hpnames] at hnodup hfree
            have hrec := ih rsegs (i + 1) params hm hlen' hnodup hfree
            constructor
            · intro j q hj hcolon hcatch hne
              cases j with
              | zero =>
                rw [List.get?_cons_zero] at hj
                injection hj with hj2
                rw [← hj2] at hcatch
                exact absurd h4 hcatch
              | succ j0 =>
                rw [List.get?_cons_succ] at hj
                rw [hshift j0]
                exact hrec.1 j0 q hj hcolon hcatch (by rw [← hshift j0]; exact hne)
            · intro k hk
              exact hrec.2 k (by rw [hpnames] at hk; exact hk)
          · rw [if_neg h4] at hm ⊢
            have hpnames : dynamicParamNames (p :: ps') =
                strTail p :: dynamicParamNames ps' := by
              rw [dynamicParamNames_cons, if_pos]
              rw [Bool.and_eq_true]
              exact ⟨h3, decide_eq_true h4⟩
            rw [hpnames] at hnodup hfree
            have hkey_notin : ¬ strTail p ∈ dynamicParamNames ps' :=
              (List.nodup_cons.mp hnodup).1
            have hnodup' : (dynamicParamNames ps').Nodup := (List.nodup_cons.mp hnodup).2
            have hfree' : ∀ k, k ∈ dynamicParamNames ps' →
                mapGet (mapSet params (strTail p) (rsegs.getD i "")) k = none := by
              intro k hk
              rw [mapGet_mapSet_other _ _ _ _ (fun hc => hkey_notin (by rw [← hc]; exact hk))]
              exact hfree k (List.mem_cons_of_mem _ hk)
            have hrec := ih rsegs (i + 1) (mapSet params (strTail p) (rsegs.getD i ""))
              hm hlen' hnodup' hfree'
            have hgetD : rsegs.getD i "" = rsegs[i] := by
              rw [List.getD_eq_getElem?_getD, List.getElem?_eq_getElem hi]
              rfl
            constructor
            · intro j q hj hcolon hcatch hne
              cases j with
              | zero =>
                rw [List.get?_cons_zero] at hj
                injection hj with hj2
                rw [Nat.add_zero]
                rw [← hj2]
                rw [hrec.2 (strTail p) hkey_notin]
                rw [mapGet_mapSet_self]
                rw [hgetD]
                exact hget.symm
              | succ j0 =>
                rw [List.get?_cons_succ] at hj
                rw [hshift j0]
                exact hrec.1 j0 q hj hcolon hcatch (by rw [← hshift j0]; exact hne)
            · intro k hk
              rw [hpnames] at hk
              have hk1 : ¬ k = strTail p := fun hc => hk (by rw [hc]; exact List.mem_cons_self _ _)
              have hk2 : ¬ k ∈ dynamicParamNames ps' :=
                fun hc => hk (List.mem_cons_of_mem _ hc)
              rw [hrec.2 k hk2]
              exact mapGet_mapSet_other _ _ _ _ hk1
        · rw [if_neg h2, if_neg h3] at hm
          simp at hm

theorem strengthLoop_self : ∀ (l : List String), strengthLoop true l l = specScoreSum l l := by
  intro l
  induction l with
  | nil => rfl
  | cons p ps ih =>
    unfold strengthLoop specScoreSum specSegmentWeight
    rw [if_pos ⟨rfl, rfl⟩, if_pos rfl, List.tail_cons, ih]

/-- C6 (amended): for a matching pattern/path pair whose trimmed segment
lists are free of empty segments, with the pattern no longer than the
path and pattern param names distinct, the score is the sum over pattern
segments of 3 for an exact literal, 1 for the splat constant, else 2 for
a leading-colon dynamic segment (the sum breaking at the first segment
earning nothing); each dynamic segment binds its name to the
corresponding path segment, and "catch*" is never bound as a param.
(Without the length-gap hypothesis the literal branch is disabled and the
weights diverge from the spec; see the counterexample.) -/
theorem C6_amended_test (pattern path : String)
    (hm : (matcher pattern path).isMatch = true)
    (hwfp : ∀ s ∈ goSplitSlash (trimSlashPrefix pattern), s.length > 0)
    (hwfr : ∀ s ∈ goSplitSlash (trimSlashPrefix path), s.length > 0)
    (hlen : (goSplitSlash (trimSlashPrefix pattern)).length ≤
      (goSplitSlash (trimSlashPrefix path)).length)
    (hnodup : (dynamicParamNames (goSplitSlash (trimSlashPrefix pattern))).Nodup) :
    (matcher pattern path).score =
      specScoreSum (goSplitSlash (trimSlashPrefix pattern)) (goSplitSlash (trimSlashPrefix path)) ∧
    (∀ i p, (goSplitSlash (trimSlashPrefix pattern)).get? i = some p →
        strHasPrefixChar p ':' = true → strTail p ≠ "catch*" →
        (goSplitSlash (trimSlashPrefix path)).get? i ≠ some p →
        mapGet (matcher pattern path).params (strTail p) =
          (goSplitSlash (trimSlashPrefix path)).get? i) ∧
    mapGet (matcher pattern path).params "catch*" = none := by
  have hps : nonEmptySegments (trimSlashPrefix pattern) = goSplitSlash (trimSlashPrefix pattern) := by
    unfold nonEmptySegments
    exact List.filter_eq_self.mpr (fun a ha => decide_eq_true (hwfp a ha))
  have hrs : nonEmptySegments (trimSlashPrefix path) = goSplitSlash (trimSlashPrefix path) := by
    unfold nonEmptySegments
    exact List.filter_eq_self.mpr (fun a ha => decide_eq_true (hwfr a ha))
  unfold matcher at hm ⊢
  split at hm
  · exact absurd hm (by decide)
  · split at hm
    · exact absurd hm (by decide)
    · rename_i hbail hmp
      rw [if_neg hbail, if_neg hmp]
      have hmp' : (matcherMP (trimSlashPrefix pattern) (trimSlashPrefix path)).1 = true := by
        revert hmp
        cases (matcherMP (trimSlashPrefix pattern) (trimSlashPrefix path)).1 <;> simp
      refine ⟨?_, ?_, ?_⟩
      · show (getMatchStrength (trimSlashPrefix pattern) (trimSlashPrefix path)).Score = _
        unfold getMatchStrength
        simp only [hps, hrs]
        rw [decide_eq_true hlen]
        unfold matcherMP at hmp'
        by_cases heq : trimSlashPrefix pattern = trimSlashPrefix path
        · rw [heq]
          exact strengthLoop_self _
        · rw [if_neg heq] at hmp'
          have hsc := matcherScore_correspondence (goSplitSlash (trimSlashPrefix pattern))
            (goSplitSlash (trimSlashPrefix path)) 0 [] hmp' (by omega)
          rw [List.drop_zero] at hsc
          exact hsc
      · show ∀ i p, _ →  _ → _ → _ →
          mapGet (matcherMP (trimSlashPrefix pattern) (trimSlashPrefix path)).2 (strTail p) = _
        unfold matcherMP at hmp' ⊢
        by_cases heq : trimSlashPrefix pattern = trimSlashPrefix path
        · rw [if_pos heq]
          intro i p hj _ _ hne
          rw [heq] at hj
          exact absurd hj hne
        · rw [if_neg heq] at hmp' ⊢
          intro i p hj hcolon hcatch hne
          have hpar := (matcherParams_correspondence (goSplitSlash (trimSlashPrefix pattern))
            (goSplitSlash (trimSlashPrefix path)) 0 [] hmp' (by omega) hnodup
            (fun k _ => rfl)).1 i p hj hcolon hcatch (by rw [Nat.zero_add]; exact hne)
          rw [Nat.zero_add] at hpar
          exact hpar
      · show mapGet (matcherMP (trimSlashPrefix pattern) (trimSlashPrefix path)).2 "catch*" = none
        unfold matcherMP at hmp' ⊢
        by_cases heq : trimSlashPrefix pattern = trimSlashPrefix path
        · rw [if_pos heq]
          rfl
        · rw [if_neg heq] at hmp' ⊢
          have hpar := (matcherParams_correspondence (goSplitSlash (trimSlashPrefix pattern))
            (goSplitSlash (trimSlashPrefix path)) 0 [] hmp' (by omega) hnodup
            (fun k _ => rfl)).2 "catch*"
            (catch_not_mem_dynamicParamNames _)
          rw [hpar]
          rfl

/-- C6 witness: the amended score and param properties evaluated on the
pattern "/tiger/:tiger_id" against "/tiger/123". -/
theorem C6_witness_test :
    (matcher "/tiger/:tiger_id" "/tiger/123").score =
      specScoreSum (goSplitSlash (trimSlashPrefix "/tiger/:tiger_id"))
        (goSplitSlash (trimSlashPrefix "/tiger/123")) ∧
    (∀ i p, (goSplitSlash (trimSlashPrefix "/tiger/:tiger_id")).get? i = some p →
        strHasPrefixChar p ':' = true → strTail p ≠ "catch*" →
        (goSplitSlash (trimSlashPrefix "/tiger/123")).get? i ≠ some p →
        mapGet (matcher "/tiger/:tiger_id" "/tiger/123").params (strTail p) =
          (goSplitSlash (trimSlashPrefix "/tiger/123")).get? i) ∧
    mapGet (matcher "/tiger/:tiger_id" "/tiger/123").params "catch*" = none :=
  C6_amended_test "/tiger/:tiger_id" "/tiger/123" (by decide) (by decide) (by decide)
    (by decide) (by decide)

theorem char_toNat_inj {a b : Char} (h : a.toNat = b.toNat) : a = b := by
  rw [← Char.ofNat_toNat a, ← Char.ofNat_toNat b, h]

theorem lexLeB_total : ∀ (a b : List Char), lexLeB a b = true ∨ lexLeB b a = true := by
  intro a
  induction a with
  | nil => intro b; exact Or.inl rfl
  | cons x xs ih =>
    intro b
    cases b with
    | nil => exact Or.inr rfl
    | cons y ys =>
      simp only [lexLeB]
      rcases Nat.lt_trichotomy x.toNat y.toNat with h | h | h
      · left; simp [h]
      · have hn1 : ¬ x.toNat < y.toNat := by omega
        have hn2 : ¬ y.toNat < x.toNat := by omega
        rcases ih ys with h2 | h2
        · left; simp [hn1, hn2, h2]
        · right; simp [hn1, hn2, h2]
      · right; simp [h]

theorem lexLeB_antisymm : ∀ (a b : List Char),
    lexLeB a b = true → lexLeB b a = true → a = b := by
  intro a
  induction a with
  | nil =>
    intro b _ hba
    cases b with
    | nil => rfl
    | cons y ys => exact absurd hba (by simp [lexLeB])
  | cons x xs ih =>
    intro b hab hba
    cases b with
    | nil => exact absurd hab (by simp [lexLeB])
    | cons y ys =>
      simp only [lexLeB] at hab hba
      rcases Nat.lt_trichotomy x.toNat y.toNat with h | h | h
      · have hn : ¬ y.toNat < x.toNat := by omega
        simp [hn, h] at hba
      · have hn1 : ¬ x.toNat < y.toNat := by omega
        have hn2 : ¬ y.toNat < x.toNat := by omega
        simp [hn1, hn2] at hab hba
        have hxy : x = y := char_toNat_inj h
        rw [hxy, ih ys hab hba]
      · have hn : ¬ x.toNat < y.toNat := by omega
        simp [hn, h] at hab

theorem lexLeB_trans : ∀ (a b c : List Char),
    lexLeB a b = true → lexLeB b c = true → lexLeB a c = true := by
  intro a
  induction a with
  | nil => intro b c _ _; rfl
  | cons x xs ih =>
    intro b c hab hbc
    cases b with
    | nil => exact absurd hab (by simp [lexLeB])
    | cons y ys =>
      cases c with
      | nil => exact absurd hbc (by simp [lexLeB])
      | cons z zs =>
        simp only [lexLeB] at hab hbc ⊢
        rcases Nat.lt_trichotomy x.toNat y.toNat with h1 | h1 | h1
        · rcases Nat.lt_trichotomy y.toNat z.toNat with h2 | h2 | h2
          · simp [show x.toNat < z.toNat by omega]
          · simp [show x.toNat < z.toNat by omega]
          · have hn1 : ¬ y.toNat < z.toNat := by omega
            simp [hn1, h2] at hbc
        · have hn1 : ¬ x.toNat < y.toNat := by omega
          have hn2 : ¬ y.toNat < x.toNat := by omega
          simp [hn1, hn2] at hab
          rcases Nat.lt_trichotomy y.toNat z.toNat with h2 | h2 | h2
          · simp [show x.toNat < z.toNat by omega]
          · have hn3 : ¬ y.toNat < z.toNat := by omega
            have hn4 : ¬ z.toNat < y.toNat := by omega
            simp [hn3, hn4] at hbc
            have hn5 : ¬ x.toNat < z.toNat := by omega
            have hn6 : ¬ z.toNat < x.toNat := by omega
            simp [hn5, hn6]
            exact ih ys zs hab hbc
          · have hn3 : ¬ y.toNat < z.toNat := by omega
            simp [hn3, h2] at hbc
        · have hn : ¬ x.toNat < y.toNat := by omega
          simp [hn, h1] at hab

theorem strLeB_total (a b : String) : strLeB a b = true ∨ strLeB b a = true :=
  lexLeB_total a.data b.data

theorem strLeB_antisymm {a b : String} (hab : strLeB a b = true) (hba : strLeB b a = true) :
    a = b := by
  have h := lexLeB_antisymm a.data b.data hab hba
  cases a
  cases b
  congr 1

theorem strLeB_trans {a b c : String} (hab : strLeB a b = true) (hbc : strLeB b c = true) :
    strLeB a c = true :=
  lexLeB_trans a.data b.data c.data hab hbc

theorem insertStrLe_perm (x : String) : ∀ (l : List String), (insertStrLe x l).Perm (x :: l) := by
  intro l
  induction l with
  | nil => exact List.Perm.refl _
  | cons y ys ih =>
    unfold insertStrLe
    split
    · exact List.Perm.refl _
    · exact List.Perm.trans (List.Perm.cons y ih) (List.Perm.swap x y ys)

theorem sortStrings_perm (l : List String) : (sortStrings l).Perm l := by
  induction l with
  | nil => exact List.Perm.refl _
  | cons x xs ih =>
    unfold sortStrings at ih ⊢
    rw [List.foldr_cons]
    exact List.Perm.trans (insertStrLe_perm x _) (List.Perm.cons x ih)

theorem insertStrLe_sorted (x : String) : ∀ (l : List String),
    List.Pairwise (fun a b => strLeB a b = true) l →
    List.Pairwise (fun a b => strLeB a b = true) (insertStrLe x l) := by
  intro l
  induction l with
  | nil => intro _; exact List.pairwise_singleton _ _
  | cons y ys ih =>
    intro hp
    unfold insertStrLe
    split
    · rename_i hxy
      refine List.Pairwise.cons ?_ hp
      intro z hz
      rcases List.mem_cons.mp hz with h1 | h2
      · rw [h1]; exact hxy
      · exact strLeB_trans hxy (List.rel_of_pairwise_cons hp h2)
    · rename_i hxy
      have hyx : strLeB y x = true := by
        rcases strLeB_total x y with h | h
        · exact absurd h hxy
        · exact h
      refine List.Pairwise.cons ?_ (ih (List.Pairwise.of_cons hp))
      intro z hz
      have hz2 : z ∈ x :: ys := (insertStrLe_perm x ys).mem_iff.mp hz
      rcases List.mem_cons.mp hz2 with h1 | h2
      · rw [h1]; exact hyx
      · exact List.rel_of_pairwise_cons hp h2

theorem sortStrings_sorted (l : List String) :
    List.Pairwise (fun a b => strLeB a b = true) (sortStrings l) := by
  induction l with
  | nil => exact List.Pairwise.nil
  | cons x xs ih =>
    unfold sortStrings at ih ⊢
    rw [List.foldr_cons]
    exact insertStrLe_sorted x _ ih

theorem sortStrings_eq_of_perm {l1 l2 : List String} (h : l1.Perm l2) :
    sortStrings l1 = sortStrings l2 := by
  haveI : IsAntisymm String (fun a b => strLeB a b = true) := ⟨fun a b => strLeB_antisymm⟩
  exact List.eq_of_perm_of_sorted
    (List.Perm.trans (sortStrings_perm l1) (List.Perm.trans h (sortStrings_perm l2).symm))
    (sortStrings_sorted l1) (sortStrings_sorted l2)

theorem stableHash_eq_of_perm {b1 b2 : HeadBlock} (htag : b1.Tag = b2.Tag)
    (hattr : b1.Attributes.Perm b2.Attributes) : stableHash b1 = stableHash b2 := by
  unfold stableHash attrParts
  rw [htag, sortStrings_eq_of_perm (List.Perm.map _ hattr)]

/-! ## C9 helper lemmas: filters, slots, and the dedup invariant -/

theorem mem_iff_exists_getElem {α} (l : List α) (a : α) :
    a ∈ l ↔ ∃ i : Nat, l[i]? = some a := by
  constructor
  · intro h
    obtain ⟨i, hlt, hi⟩ := List.getElem_of_mem h
    exact ⟨i, by rw [List.getElem?_eq_getElem hlt, hi]⟩
  · rintro ⟨i, hi⟩; exact List.getElem?_mem hi

theorem filter_eq_single {α} (p : α → Bool) :
    ∀ (l : List α) (i : Nat) (a : α), l[i]? = some a → p a = true →
    (∀ j q, j ≠ i → l[j]? = some q → p q = false) → l.filter p = [a] := by
  intro l
  induction l with
  | nil => intro i a ha _ _; simp at ha
  | cons x xs ih =>
    intro i a ha hpa huniq
    match i with
    | 0 =>
      simp at ha
      subst ha
      rw [List.filter_cons_of_pos hpa]
      have hrest : xs.filter p = [] := by
        rw [List.filter_eq_nil]
        intro q hq
        obtain ⟨j, hj⟩ := (mem_iff_exists_getElem xs q).mp hq
        have := huniq (j + 1) q (by omega) (by simpa using hj)
        simp [this]
      rw [hrest]
    | k + 1 =>
      have hx : p x = false := by
        exact huniq 0 x (by omega) (by simp)
      rw [List.filter_cons_of_neg (by simp [hx])]
      apply ih k a (by simpa using ha) hpa
      intro j q hj hq
      exact huniq (j + 1) q (by omega) (by simpa using hq)

theorem filter_set_other {α} (p : α → Bool) (b : α) (hb : p b = false) :
    ∀ (l : List α) (i : Nat) (old : α), l[i]? = some old → p old = false →
    (l.set i b).filter p = l.filter p := by
  intro l
  induction l with
  | nil => intro i old h _; simp at h
  | cons x xs ih =>
    intro i old h hold
    match i with
    | 0 =>
      simp at h
      subst h
      simp [List.set, List.filter_cons_of_neg, hb, hold]
    | k + 1 =>
      simp only [List.set]
      rcases hpx : p x with _ | _
      · rw [List.filter_cons_of_neg (by simp [hpx]), List.filter_cons_of_neg (by simp [hpx])]
        exact ih k old (by simpa using h) hold
      · rw [List.filter_cons_of_pos hpx, List.filter_cons_of_pos hpx]
        rw [ih k old (by simpa using h) hold]

theorem specGo_append (b : HeadBlock) :
    ∀ (l : List HeadBlock) (seen : List String),
    specFirstOccurrenceDedup seen (l ++ [b]) =
      specFirstOccurrenceDedup seen l ++
        (if stableHash b ∈ seen ∨ stableHash b ∈ l.map stableHash then [] else [b]) := by
  intro l
  induction l with
  | nil =>
    intro seen
    by_cases h : stableHash b ∈ seen
    · simp [specFirstOccurrenceDedup, h]
    · simp [specFirstOccurrenceDedup, h]
  | cons a as ih =>
    intro seen
    by_cases h : stableHash a ∈ seen
    · have : specFirstOccurrenceDedup seen ((a :: as) ++ [b]) =
          specFirstOccurrenceDedup seen (as ++ [b]) := by
        simp [specFirstOccurrenceDedup, h]
      rw [this, ih seen]
      have : specFirstOccurrenceDedup seen (a :: as) = specFirstOccurrenceDedup seen as := by
        simp [specFirstOccurrenceDedup, h]
      rw [this]
      by_cases hba : stableHash b = stableHash a
      · simp [hba, h]
      · simp [hba]
    · have h1 : specFirstOccurrenceDedup seen ((a :: as) ++ [b]) =
          a :: specFirstOccurrenceDedup (seen ++ [stableHash a]) (as ++ [b]) := by
        simp [specFirstOccurrenceDedup, h]
      have h2 : specFirstOccurrenceDedup seen (a :: as) =
          a :: specFirstOccurrenceDedup (seen ++ [stableHash a]) as := by
        simp [specFirstOccurrenceDedup, h]
      rw [h1, h2, ih (seen ++ [stableHash a])]
      by_cases hb1 : stableHash b ∈ seen
      · simp [hb1]
      · by_cases hba : stableHash b = stableHash a
        · simp [hba, hb1]
        · simp [hb1, hba]

theorem lt_length_of_getElem {α} {l : List α} {i : Nat} {a : α} (h : l[i]? = some a) :
    i < l.length := by
  by_contra hc
  rw [List.getElem?_eq_none (by omega)] at h
  simp at h

theorem getElem?_append_left' {α} (l m : List α) (j : Nat) (h : j < l.length) :
    (l ++ m)[j]? = l[j]? := by
  rw [List.getElem?_append]
  simp [h]

theorem getElem?_set_self' {α} (l : List α) (i : Nat) (b : α) (h : i < l.length) :
    (l.set i b)[i]? = some b := by
  simp [List.getElem?_set_self, h]

theorem slotInv_append_none (p : HeadBlock → Bool) (dedup : List HeadBlock) (idx : Option Nat)
    (pf : List HeadBlock) (b : HeadBlock) (hb : p b = false) (hs : SlotInv p dedup idx pf) :
    SlotInv p (dedup ++ [b]) idx pf := by
  obtain ⟨hs1, hs2⟩ := hs
  refine ⟨hs1, ?_⟩
  intro i hi
  obtain ⟨old, hold, hpold, huniq⟩ := hs2 i hi
  have hilt := lt_length_of_getElem hold
  refine ⟨old, ?_, hpold, ?_⟩
  · rw [getElem?_append_left' _ _ _ hilt]; exact hold
  · intro j q hj hq
    rcases Nat.lt_trichotomy j dedup.length with hlt | heq | hgt
    · rw [getElem?_append_left' _ _ _ hlt] at hq
      exact huniq j q hj hq
    · subst heq
      rw [List.getElem?_concat_length] at hq
      rw [Option.some_inj.mp hq] at hb
      exact hb
    · rw [List.getElem?_eq_none (by simp; omega)] at hq
      simp at hq

theorem slotInv_set_other (p : HeadBlock → Bool) (dedup : List HeadBlock) (idx : Option Nat)
    (pf : List HeadBlock) (b oldi : HeadBlock) (i : Nat)
    (hb : p b = false) (hi : dedup[i]? = some oldi) (hoi : p oldi = false)
    (hs : SlotInv p dedup idx pf) : SlotInv p (dedup.set i b) idx pf := by
  obtain ⟨hs1, hs2⟩ := hs
  refine ⟨hs1, ?_⟩
  intro d hd
  obtain ⟨old, hold, hpold, huniq⟩ := hs2 d hd
  have hdi : d ≠ i := by
    intro hcon
    subst hcon
    rw [hold] at hi
    rw [← Option.some_inj.mp hi] at hoi
    rw [hpold] at hoi
    simp at hoi
  refine ⟨old, ?_, hpold, ?_⟩
  · rw [List.getElem?_set_ne (by omega)]; exact hold
  · intro j q hj hq
    by_cases hji : j = i
    · subst hji
      have hilt := lt_length_of_getElem hi
      rw [getElem?_set_self' _ _ _ hilt] at hq
      rw [Option.some_inj.mp hq] at hb
      exact hb
    · rw [List.getElem?_set_ne (by omega)] at hq
      exact huniq j q hj hq

theorem slotInv_set_self (p : HeadBlock → Bool) (dedup : List HeadBlock)
    (pf : List HeadBlock) (b : HeadBlock) (i : Nat) (hpb : p b = true)
    (hs : SlotInv p dedup (some i) pf) :
    ∀ pf2, SlotInv p (dedup.set i b) (some i) pf2 := by
  obtain ⟨_, hs2⟩ := hs
  obtain ⟨old, hold, hpold, huniq⟩ := hs2 i rfl
  have hilt := lt_length_of_getElem hold
  intro pf2
  refine ⟨by intro h; simp at h, ?_⟩
  intro d hd
  rw [← Option.some_inj.mp hd]
  refine ⟨b, getElem?_set_self' _ _ _ hilt, hpb, ?_⟩
  intro j q hj hq
  rw [List.getElem?_set_ne (by omega)] at hq
  exact huniq j q hj hq

theorem slotInv_reserve (p : HeadBlock → Bool) (dedup : List HeadBlock) (b : HeadBlock)
    (hpb : p b = true) (hnop : dedup.filter p = []) :
    ∀ pf2, SlotInv p (dedup ++ [b]) (some dedup.length) pf2 := by
  intro pf2
  refine ⟨by intro h; simp at h, ?_⟩
  intro d hd
  rw [← Option.some_inj.mp hd]
  refine ⟨b, List.getElem?_concat_length _ _, hpb, ?_⟩
  intro j q hj hq
  rcases Nat.lt_trichotomy j dedup.length with hlt | heq | hgt
  · rw [getElem?_append_left' _ _ _ hlt] at hq
    have hqmem : q ∈ dedup := List.getElem?_mem hq
    have := List.filter_eq_nil.mp hnop q hqmem
    simp [this]
  · omega
  · rw [List.getElem?_eq_none (by simp; omega)] at hq
    simp at hq

theorem isDesc_false_of_title {b : HeadBlock} (h : isTitleBlock b = true) :
    isDescriptionBlock b = false := by
  simp [isDescriptionBlock, h]

theorem isOther_false_of_title {b : HeadBlock} (h : isTitleBlock b = true) :
    isOtherBlock b = false := by
  simp [isOtherBlock, h]

theorem isDesc_true_of {b : HeadBlock} (h1 : isTitleBlock b = false)
    (h2 : isDescriptionCondition b = true) : isDescriptionBlock b = true := by
  simp [isDescriptionBlock, h1, h2]

theorem isOther_false_of_desccond {b : HeadBlock} (h2 : isDescriptionCondition b = true) :
    isOtherBlock b = false := by
  simp [isOtherBlock, h2]

theorem isOther_true_of {b : HeadBlock} (h1 : isTitleBlock b = false)
    (h2 : isDescriptionCondition b = false) : isOtherBlock b = true := by
  simp [isOtherBlock, h1, h2]

theorem isDesc_false_of_notcond {b : HeadBlock} (h2 : isDescriptionCondition b = false) :
    isDescriptionBlock b = false := by
  simp [isDescriptionBlock, h2]

theorem title_false_of_desc {b : HeadBlock} (h : isDescriptionBlock b = true) :
    isTitleBlock b = false := by
  simp [isDescriptionBlock] at h
  exact h.1

theorem other_false_of_desc {b : HeadBlock} (h : isDescriptionBlock b = true) :
    isOtherBlock b = false := by
  simp [isDescriptionBlock] at h
  simp [isOtherBlock, h.2]

theorem filter_append_single_neg {p : HeadBlock → Bool} {b : HeadBlock}
    (l : List HeadBlock) (hb : p b = false) : (l ++ [b]).filter p = l.filter p := by
  simp [List.filter_append, hb]

theorem filter_append_single_pos {p : HeadBlock → Bool} {b : HeadBlock}
    (l : List HeadBlock) (hb : p b = true) : (l ++ [b]).filter p = l.filter p ++ [b] := by
  simp [List.filter_append, hb]

theorem lastSingleton_concat (l : List HeadBlock) (b : HeadBlock) :
    lastSingleton (l ++ [b]) = [b] := by
  simp [lastSingleton, List.getLast?_concat]

theorem keysInv_append_nonother (uk : List String) (processed : List HeadBlock)
    (b : HeadBlock) (hob : isOtherBlock b = false)
    (h : ∀ k, uk.contains k = true ↔
      ∃ x, x ∈ processed ∧ isOtherBlock x = true ∧ stableHash x = k) :
    ∀ k, uk.contains k = true ↔
      ∃ x, x ∈ processed ++ [b] ∧ isOtherBlock x = true ∧ stableHash x = k := by
  intro k
  rw [h k]
  constructor
  · rintro ⟨x, hx, hx1, hx2⟩
    exact ⟨x, List.mem_append_left _ hx, hx1, hx2⟩
  · rintro ⟨x, hx, hx1, hx2⟩
    rcases List.mem_append.mp hx with hx | hx
    · exact ⟨x, hx, hx1, hx2⟩
    · rw [List.mem_singleton.mp hx] at hx1
      exact absurd hx1 (by simp [hob])

theorem dedupeStep_inv_title_none (processed : List HeadBlock) (s : DedupState)
    (b : HeadBlock) (ht : isTitleBlock b = true) (hti : s.titleIdx = none)
    (hinv : DedupInv processed s) :
    DedupInv (processed ++ [b])
      { s with titleIdx := some s.dedupedBlocks.length,
               dedupedBlocks := s.dedupedBlocks ++ [b] } := by
  obtain ⟨h1, h2, h3, h4, h5, h6⟩ := hinv
  have hdesc := isDesc_false_of_title ht
  have hother := isOther_false_of_title ht
  have hpf : processed.filter isTitleBlock = [] := h5.1 hti
  have hded : s.dedupedBlocks.filter isTitleBlock = [] := by
    rw [h1, hpf]; rfl
  refine ⟨?_, ?_, ?_, ?_, ?_, ?_⟩
  · dsimp only
    rw [filter_append_single_pos _ ht, filter_append_single_pos _ ht, hded,
        lastSingleton_concat]
    simp
  · dsimp only
    rw [filter_append_single_neg _ hdesc, filter_append_single_neg _ hdesc]
    exact h2
  · dsimp only
    rw [filter_append_single_neg _ hother, filter_append_single_neg _ hother]
    exact h3
  · dsimp only
    exact keysInv_append_nonother _ _ _ hother h4
  · dsimp only
    exact slotInv_reserve _ _ _ ht hded _
  · dsimp only
    rw [filter_append_single_neg _ hdesc]
    exact slotInv_append_none _ _ _ _ _ hdesc h6

theorem dedupeStep_inv_title_some (processed : List HeadBlock) (s : DedupState)
    (b : HeadBlock) (i : Nat) (ht : isTitleBlock b = true) (hti : s.titleIdx = some i)
    (hinv : DedupInv processed s) :
    DedupInv (processed ++ [b]) { s with dedupedBlocks := s.dedupedBlocks.set i b } := by
  obtain ⟨h1, h2, h3, h4, h5, h6⟩ := hinv
  have hdesc := isDesc_false_of_title ht
  have hother := isOther_false_of_title ht
  obtain ⟨oldi, holdi, hpoldi, huniq⟩ := h5.2 i hti
  have hdesc_oldi : isDescriptionBlock oldi = false := isDesc_false_of_title hpoldi
  have hother_oldi : isOtherBlock oldi = false := isOther_false_of_title hpoldi
  refine ⟨?_, ?_, ?_, ?_, ?_, ?_⟩
  · dsimp only
    rw [filter_append_single_pos _ ht, lastSingleton_concat]
    refine filter_eq_single _ _ i b (getElem?_set_self' _ _ _ (lt_length_of_getElem holdi))
      ht ?_
    intro j q hj hq
    rw [List.getElem?_set_ne (by omega)] at hq
    exact huniq j q hj hq
  · dsimp only
    rw [filter_append_single_neg _ hdesc,
        filter_set_other isDescriptionBlock b hdesc _ i oldi holdi hdesc_oldi]
    exact h2
  · dsimp only
    rw [filter_append_single_neg _ hother,
        filter_set_other isOtherBlock b hother _ i oldi holdi hother_oldi]
    exact h3
  · dsimp only
    exact keysInv_append_nonother _ _ _ hother h4
  · dsimp only
    rw [hti]
    rw [hti] at h5
    exact slotInv_set_self _ _ _ b i ht h5 _
  · dsimp only
    rw [filter_append_single_neg _ hdesc]
    exact slotInv_set_other _ _ _ _ b oldi i hdesc holdi hdesc_oldi h6

theorem dedupeStep_inv_desc_none (processed : List HeadBlock) (s : DedupState)
    (b : HeadBlock) (ht : isTitleBlock b = false) (hd : isDescriptionCondition b = true)
    (hdi : s.descriptionIdx = none) (hinv : DedupInv processed s) :
    DedupInv (processed ++ [b])
      { s with descriptionIdx := some s.dedupedBlocks.length,
               dedupedBlocks := s.dedupedBlocks ++ [b] } := by
  obtain ⟨h1, h2, h3, h4, h5, h6⟩ := hinv
  have hdescb : isDescriptionBlock b = true := isDesc_true_of ht hd
  have hother : isOtherBlock b = false := isOther_false_of_desccond hd
  have hpf : processed.filter isDescriptionBlock = [] := h6.1 hdi
  have hded : s.dedupedBlocks.filter isDescriptionBlock = [] := by
    rw [h2, hpf]; rfl
  refine ⟨?_, ?_, ?_, ?_, ?_, ?_⟩
  · dsimp only
    rw [filter_append_single_neg _ ht, filter_append_single_neg _ ht]
    exact h1
  · dsimp only
    rw [filter_append_single_pos _ hdescb, filter_append_single_pos _ hdescb, hded,
        lastSingleton_concat]
    simp
  · dsimp only
    rw [filter_append_single_neg _ hother, filter_append_single_neg _ hother]
    exact h3
  · dsimp only
    exact keysInv_append_nonother _ _ _ hother h4
  · dsimp only
    rw [filter_append_single_neg _ ht]
    exact slotInv_append_none _ _ _ _ _ ht h5
  · dsimp only
    exact slotInv_reserve _ _ _ hdescb hded _

theorem dedupeStep_inv_desc_some (processed : List HeadBlock) (s : DedupState)
    (b : HeadBlock) (i : Nat) (ht : isTitleBlock b = false)
    (hd : isDescriptionCondition b = true) (hdi : s.descriptionIdx = some i)
    (hinv : DedupInv processed s) :
    DedupInv (processed ++ [b]) { s with dedupedBlocks := s.dedupedBlocks.set i b } := by
  obtain ⟨h1, h2, h3, h4, h5, h6⟩ := hinv
  have hdescb : isDescriptionBlock b = true := isDesc_true_of ht hd
  have hother : isOtherBlock b = false := isOther_false_of_desccond hd
  obtain ⟨oldi, holdi, hpoldi, huniq⟩ := h6.2 i hdi
  have htitle_oldi : isTitleBlock oldi = false := title_false_of_desc hpoldi
  have hother_oldi : isOtherBlock oldi = false := other_false_of_desc hpoldi
  refine ⟨?_, ?_, ?_, ?_, ?_, ?_⟩
  · dsimp only
    rw [filter_append_single_neg _ ht,
        filter_set_other isTitleBlock b ht _ i oldi holdi htitle_oldi]
    exact h1
  · dsimp only
    rw [filter_append_single_pos _ hdescb, lastSingleton_concat]
    refine filter_eq_single _ _ i b (getElem?_set_self' _ _ _ (lt_length_of_getElem holdi))
      hdescb ?_
    intro j q hj hq
    rw [List.getElem?_set_ne (by omega)] at hq
    exact huniq j q hj hq
  · dsimp only
    rw [filter_append_single_neg _ hother,
        filter_set_other isOtherBlock b hother _ i oldi holdi hother_oldi]
    exact h3
  · dsimp only
    exact keysInv_append_nonother _ _ _ hother h4
  · dsimp only
    rw [filter_append_single_neg _ ht]
    exact slotInv_set_other _ _ _ _ b oldi i ht holdi htitle_oldi h5
  · dsimp only
    rw [hdi]
    rw [hdi] at h6
    exact slotInv_set_self _ _ _ b i hdescb h6 _

theorem dedupeStep_inv_other_seen (processed : List HeadBlock) (s : DedupState)
    (b : HeadBlock) (ht : isTitleBlock b = false) (hd : isDescriptionCondition b = false)
    (hseen : s.uniqueKeys.contains (stableHash b) = true) (hinv : DedupInv processed s) :
    DedupInv (processed ++ [b]) s := by
  obtain ⟨h1, h2, h3, h4, h5, h6⟩ := hinv
  have hotherb : isOtherBlock b = true := isOther_true_of ht hd
  have hdescb : isDescriptionBlock b = false := isDesc_false_of_notcond hd
  obtain ⟨x, hxp, hxo, hxh⟩ := (h4 (stableHash b)).mp hseen
  refine ⟨?_, ?_, ?_, ?_, ?_, ?_⟩
  · rw [filter_append_single_neg _ ht]
    exact h1
  · rw [filter_append_single_neg _ hdescb]
    exact h2
  · rw [filter_append_single_pos _ hotherb, specGo_append]
    have hmem : stableHash b ∈ (processed.filter isOtherBlock).map stableHash :=
      List.mem_map.mpr ⟨x, List.mem_filter.mpr ⟨hxp, hxo⟩, hxh⟩
    rw [if_pos (Or.inr hmem)]
    simpa using h3
  · intro k
    constructor
    · intro hc
      obtain ⟨y, hy, hy1, hy2⟩ := (h4 k).mp hc
      exact ⟨y, List.mem_append_left _ hy, hy1, hy2⟩
    · rintro ⟨y, hy, hy1, hy2⟩
      rcases List.mem_append.mp hy with hm | hm
      · exact (h4 k).mpr ⟨y, hm, hy1, hy2⟩
      · rw [List.mem_singleton.mp hm] at hy2
        rw [← hy2]
        exact hseen
  · rw [filter_append_single_neg _ ht]
    exact h5
  · rw [filter_append_single_neg _ hdescb]
    exact h6

theorem dedupeStep_inv_other_new (processed : List HeadBlock) (s : DedupState)
    (b : HeadBlock) (ht : isTitleBlock b = false) (hd : isDescriptionCondition b = false)
    (hseen : s.uniqueKeys.contains (stableHash b) = false) (hinv : DedupInv processed s) :
    DedupInv (processed ++ [b])
      { s with uniqueKeys := s.uniqueKeys ++ [stableHash b],
               dedupedBlocks := s.dedupedBlocks ++ [b] } := by
  obtain ⟨h1, h2, h3, h4, h5, h6⟩ := hinv
  have hotherb : isOtherBlock b = true := isOther_true_of ht hd
  have hdescb : isDescriptionBlock b = false := isDesc_false_of_notcond hd
  refine ⟨?_, ?_, ?_, ?_, ?_, ?_⟩
  · dsimp only
    rw [filter_append_single_neg _ ht, filter_append_single_neg _ ht]
    exact h1
  · dsimp only
    rw [filter_append_single_neg _ hdescb, filter_append_single_neg _ hdescb]
    exact h2
  · dsimp only
    rw [filter_append_single_pos _ hotherb, filter_append_single_pos _ hotherb,
        specGo_append]
    have hcond : ¬ (stableHash b ∈ ([] : List String) ∨
        stableHash b ∈ (processed.filter isOtherBlock).map stableHash) := by
      rintro (hc | hc)
      · simp at hc
      · obtain ⟨y, hyfil, hyh⟩ := List.mem_map.mp hc
        obtain ⟨hyp, hyo⟩ := List.mem_filter.mp hyfil
        have := (h4 (stableHash b)).mpr ⟨y, hyp, hyo, hyh⟩
        rw [hseen] at this
        simp at this
    rw [if_neg hcond, h3]
  · dsimp only
    intro k
    constructor
    · intro hc
      have hmem : k ∈ s.uniqueKeys ++ [stableHash b] := List.elem_iff.mp hc
      rcases List.mem_append.mp hmem with hm | hm
      · obtain ⟨y, hy, hy1, hy2⟩ := (h4 k).mp (List.elem_iff.mpr hm)
        exact ⟨y, List.mem_append_left _ hy, hy1, hy2⟩
      · rw [List.mem_singleton.mp hm]
        exact ⟨b, List.mem_append_right _ (List.mem_singleton_self b), hotherb, rfl⟩
    · rintro ⟨y, hy, hy1, hy2⟩
      rcases List.mem_append.mp hy with hm | hm
      · have := (h4 k).mpr ⟨y, hm, hy1, hy2⟩
        exact List.elem_iff.mpr (List.mem_append_left _ (List.elem_iff.mp this))
      · rw [List.mem_singleton.mp hm] at hy2
        rw [← hy2]
        exact List.elem_iff.mpr (List.mem_append_right _ (List.mem_singleton_self _))
  · dsimp only
    rw [filter_append_single_neg _ ht]
    exact slotInv_append_none _ _ _ _ _ ht h5
  · dsimp only
    rw [filter_append_single_neg _ hdescb]
    exact slotInv_append_none _ _ _ _ _ hdescb h6

theorem dedupeStep_inv (processed : List HeadBlock) (s : DedupState) (b : HeadBlock)
    (hinv : DedupInv processed s) : DedupInv (processed ++ [b]) (dedupeStep s b) := by
  cases hbt : isTitleBlock b with
  | true =>
    cases hti : s.titleIdx with
    | none =>
      have hstep : dedupeStep s b =
          { s with titleIdx := some s.dedupedBlocks.length,
                   dedupedBlocks := s.dedupedBlocks ++ [b] } := by
        simp [dedupeStep, hbt, hti]
      rw [hstep]
      exact dedupeStep_inv_title_none processed s b hbt hti hinv
    | some i =>
      have hstep : dedupeStep s b = { s with dedupedBlocks := s.dedupedBlocks.set i b } := by
        simp [dedupeStep, hbt, hti]
      rw [hstep]
      exact dedupeStep_inv_title_some processed s b i hbt hti hinv
  | false =>
    cases hbd : isDescriptionCondition b with
    | true =>
      cases hdi : s.descriptionIdx with
      | none =>
        have hstep : dedupeStep s b =
            { s with descriptionIdx := some s.dedupedBlocks.length,
                     dedupedBlocks := s.dedupedBlocks ++ [b] } := by
          simp [dedupeStep, hbt, hbd, hdi]
        rw [hstep]
        exact dedupeStep_inv_desc_none processed s b hbt hbd hdi hinv
      | some i =>
        have hstep : dedupeStep s b =
            { s with dedupedBlocks := s.dedupedBlocks.set i b } := by
          simp [dedupeStep, hbt, hbd, hdi]
        rw [hstep]
        exact dedupeStep_inv_desc_some processed s b i hbt hbd hdi hinv
    | false =>
      cases hseen : s.uniqueKeys.contains (stableHash b) with
      | true =>
        have hmem : stableHash b ∈ s.uniqueKeys := List.elem_iff.mp hseen
        have hstep : dedupeStep s b = s := by
          simp [dedupeStep, hbt, hbd, hmem]
        rw [hstep]
        exact dedupeStep_inv_other_seen processed s b hbt hbd hseen hinv
      | false =>
        have hmem : stableHash b ∉ s.uniqueKeys := by
          intro hm
          have hc : s.uniqueKeys.contains (stableHash b) = true := List.elem_iff.mpr hm
          rw [hseen] at hc
          simp at hc
        have hstep : dedupeStep s b =
            { s with uniqueKeys := s.uniqueKeys ++ [stableHash b],
                     dedupedBlocks := s.dedupedBlocks ++ [b] } := by
          simp [dedupeStep, hbt, hbd, hmem]
        rw [hstep]
        exact dedupeStep_inv_other_new processed s b hbt hbd hseen hinv

theorem dedupe_fold_inv : ∀ (blocks processed : List HeadBlock) (s : DedupState),
    DedupInv processed s → DedupInv (processed ++ blocks) (blocks.foldl dedupeStep s) := by
  intro blocks
  induction blocks with
  | nil =>
    intro processed s h
    simpa using h
  | cons x xs ih =>
    intro processed s h
    have h2 := ih (processed ++ [x]) (dedupeStep s x) (dedupeStep_inv processed s x h)
    simpa [List.foldl_cons, List.append_assoc] using h2

theorem dedupInv_init :
    DedupInv [] { uniqueKeys := [], dedupedBlocks := [], titleIdx := none,
                  descriptionIdx := none } := by
  refine ⟨rfl, rfl, rfl, ?_, ⟨fun _ => rfl, ?_⟩, ⟨fun _ => rfl, ?_⟩⟩
  · intro k
    constructor
    · intro h
      simp at h
    · rintro ⟨x, hx, _, _⟩
      simp at hx
  · intro i h
    simp at h
  · intro i h
    simp at h

/-- C9: head-block deduplication keeps, among the generic blocks, exactly
the first occurrence of each tag-plus-attribute-set identity; all title
blocks collapse to a single slot holding the last title; the
meta-description blocks collapse to an independent singleton slot holding
the last one; and the identity hash ignores attribute order. -/
theorem C9_test :
    (∀ blocks : List HeadBlock,
      (dedupeHeadBlocks blocks).filter isTitleBlock =
        lastSingleton (blocks.filter isTitleBlock) ∧
      (dedupeHeadBlocks blocks).filter isDescriptionBlock =
        lastSingleton (blocks.filter isDescriptionBlock) ∧
      (dedupeHeadBlocks blocks).filter isOtherBlock =
        specFirstOccurrenceDedup [] (blocks.filter isOtherBlock)) ∧
    (∀ b1 b2 : HeadBlock, b1.Tag = b2.Tag → b1.Attributes.Perm b2.Attributes →
      stableHash b1 = stableHash b2) := by
  constructor
  · intro blocks
    have h := dedupe_fold_inv blocks [] _ dedupInv_init
    simp only [List.nil_append] at h
    obtain ⟨h1, h2, h3, _⟩ := h
    exact ⟨h1, h2, h3⟩
  · intro b1 b2 htag hperm
    exact stableHash_eq_of_perm htag hperm

/-- C9 witness: the slot equations evaluated on a concrete block list, and
hash equality on two concretely permuted attribute lists. -/
theorem C9_test_witness :
    ((dedupeHeadBlocks demoHeadBlocks).filter isTitleBlock =
        lastSingleton (demoHeadBlocks.filter isTitleBlock) ∧
      (dedupeHeadBlocks demoHeadBlocks).filter isDescriptionBlock =
        lastSingleton (demoHeadBlocks.filter isDescriptionBlock) ∧
      (dedupeHeadBlocks demoHeadBlocks).filter isOtherBlock =
        specFirstOccurrenceDedup [] (demoHeadBlocks.filter isOtherBlock)) ∧
    stableHash headBlockA = stableHash headBlockB :=
  ⟨C9_test.1 demoHeadBlocks, C9_test.2 headBlockA headBlockB rfl (by decide)⟩

/-- C1: resolving the request "/tiger/123" against the registered tiger
patterns yields the chain /tiger, /tiger/:tiger_id, /tiger/:tiger_id
index in root-to-leaf order, with params binding tiger_id to "123" and
no splat segments. -/
theorem C1_test :
    (resolveRoute tigerRoutes "/tiger/123").matchingPaths.map
        (fun p => (p.Segments, p.PathType)) =
      [(["tiger"], "static-layout"),
       (["tiger", ":tiger_id"], "dynamic-layout"),
       (["tiger", ":tiger_id", ""], "index")] ∧
    (resolveRoute tigerRoutes "/tiger/123").params = [("tiger_id", "123")] ∧
    (resolveRoute tigerRoutes "/tiger/123").splatSegments = none := by decide

/-- C2 (amended): when the loader at chain position 2 of a three-entry
chain errors and the error sits at the last chain position, the reported
outermost error index is 2 and the reported boundary anchor is 0.  (The
anchor arithmetic scans the loader-data list, not the Heads, and equals
the ancestor depth only when the error is at the last position; see the
counterexample.) -/
theorem C2_test (d e : String) :
    errorReduction [some d, none, none] [none, none, some e] none =
      { thereAreErrors := true, outermostErrorIndex := 2,
        closestParentErrorBoundaryIndex := 0 } := rfl

/-- C2 counterexample: with a fourth chain entry after the erroring
position 2, the reported boundary anchor becomes -1, not the
nearest-ancestor depth 0 the claim predicts. -/
theorem C2_cex_test :
    (errorReduction [some "data0", none, none, none] [none, none, some "boom", none]
      none).outermostErrorIndex = 2 ∧
    (errorReduction [some "data0", none, none, none] [none, none, some "boom", none]
      none).closestParentErrorBoundaryIndex = -1 ∧
    (-1 : Int) ≠ 0 := by decide

/-- C7 counterexample: for patterns "/:x" and "/a/b" on request "/a/b",
the ancestor binds x to "a" but the reported params map is empty: ancestor
params are not merged into the result. -/
theorem C7_cex_test :
    (resolveRoute paramsMergeRoutes "/a/b").matchingPaths.map
        (fun p => (p.PathType, p.Params)) =
      [("dynamic-layout", [("x", "a")]), ("static-layout", [])] ∧
    (resolveRoute paramsMergeRoutes "/a/b").params = [] := by decide

/-- C8 counterexample: for the pattern "/:a" and request "/", a
non-index candidate with declared segment count 1 survives filtering
although the real-segment count is 0: the zero-real-segment case
bypasses the filter entirely. -/
theorem C8_cex_test :
    (filterBySegmentLength (getInitialMatchingPaths rootDynamicRoutes "/") "/").map
        (fun x => (x.Segments.length, x.RealSegmentsLength, x.PathType)) =
      [(1, 0, "dynamic-layout")] ∧ ¬ ((1 : Nat) ≤ 0 + 0) := by decide

/-- C10: a GET request to a single-entry chain whose entry has an action
panics slicing activeHeads to index -1 instead of returning a response
with the method-not-allowed error confined to the action slot. -/
theorem C10_test :
    orchestrate
      [{ hasLoader := true, hasAction := true, hasHead := true,
         PathType := "static-layout" }]
      ["/x.js"] "GET" (fun _ => (some "loader data", none)) (some "action data", none) =
      Except.error GoPanic.sliceBounds := rfl

/-- C4 counterexample: when only the action errors (no loader error),
the failure is an out-of-range slice of activeHeads, not the nil
ActionData pointer dereference the claim asserts for every error. -/
theorem C4_cex_test :
    orchestrate
      [{ hasLoader := false, hasAction := true, hasHead := false,
         PathType := "static-layout" }]
      ["/y.js"] "GET" (fun _ => (none, none)) (none, none) =
        Except.error GoPanic.sliceBounds ∧
    GoPanic.sliceBounds ≠ GoPanic.nilPointerDeref := ⟨rfl, by decide⟩

/-- C6 counterexample: "/tiger/:catch*" matches the shorter path
"/tiger" with score 0, while the claimed per-segment weights sum to 4:
when the pattern is longer than the path the literal branch is disabled
and the walk breaks immediately. -/
theorem C6_cex_test :
    (matcher "/tiger/:catch*" "/tiger").isMatch = true ∧
    (matcher "/tiger/:catch*" "/tiger").score = 0 ∧
    specScoreSum (nonEmptySegments "tiger/:catch*") (nonEmptySegments "tiger") = 4 ∧
    (0 : Nat) ≠ 4 := by decide

/-- C3 counterexample: with the loader error at chain position 1, the
head list is cut to one entry, strictly before the outermost error
index, while the chain keeps both entries: the four lists are not all
truncated through the error index. -/
theorem C3_cex_test :
    (truncateOnError
        [{ hasLoader := true, hasAction := false, hasHead := true,
           PathType := "static-layout" },
         { hasLoader := true, hasAction := false, hasHead := true, PathType := "index" }]
        [some (), some ()] [some "d0", none] ["/a.js", "/b.js"]
        (errorReduction [some "d0", none] [none, some "boom"] none).outermostErrorIndex) =
      Except.ok
        ([{ hasLoader := true, hasAction := false, hasHead := true,
            PathType := "static-layout" },
          { hasLoader := true, hasAction := false, hasHead := true,
            PathType := "index" }],
         [some ()], [some "d0"], ["/a.js", "/b.js"]) ∧
    ([some ()] : List (Option Unit)).length ≠ 2 := ⟨rfl, by decide⟩

/-- C8 (amended): every candidate surviving segment-count filtering
either has real-segment count 0 (the filter is bypassed for the root
path) or has declared segment count at most the real count plus 1 for
index patterns, plus 0 otherwise. -/
theorem C8_amended_test (pathsArg : List MatchingPath) (realPath : String) (x : MatchingPath)
    (hx : x ∈ filterBySegmentLength pathsArg realPath) :
    x.RealSegmentsLength = 0 ∨
      x.Segments.length ≤ x.RealSegmentsLength +
        (if x.PathType = PathTypeIndex then 1 else 0) := by
  have hp := (List.mem_filter.mp hx).2
  unfold survivesSegmentFilter at hp
  by_cases h0 : x.RealSegmentsLength = 0
  · exact Or.inl h0
  · right
    rw [if_neg h0] at hp
    have hle : x.Segments.length ≤
        (if x.PathType = PathTypeIndex then x.RealSegmentsLength + 1
         else x.RealSegmentsLength) := by
      by_contra hc
      rw [if_pos hc] at hp
      exact absurd hp (by simp)
    by_cases hi : x.PathType = PathTypeIndex
    · rw [if_pos hi] at hle
      rw [if_pos hi]
      omega
    · rw [if_neg hi] at hle
      rw [if_neg hi]
      omega

/-- C7 (amended): the reported params map is exactly the params of the
deepest (last) entry of the resolved chain; ancestor bindings absent
from the deepest entry are dropped, not merged. -/
theorem C7_amended_test (instancePaths : List RoutePath) (rawPath : String)
    (lastP : MatchingPath)
    (h : (resolveRoute instancePaths rawPath).matchingPaths.getLast? = some lastP) :
    (resolveRoute instancePaths rawPath).params = lastP.Params := by
  have hp : (resolveRoute instancePaths rawPath).params =
      (((resolveRoute instancePaths rawPath).matchingPaths.getLast?).getD
        zeroMatchingPath).Params := rfl
  rw [hp, h]
  rfl

/-- C3 (amended): on an error at outermost index o, the matching-path
chain and the import-URL list are truncated to entries 0..o inclusive,
while the head list and the loader-data list are truncated to entries
0..o-1, excluding the error index itself. -/
theorem C3_amended_test (mps : List DecoratedPathEntry) (heads : List (Option Unit))
    (lds : List (Option String)) (urls : List String) (o : Nat)
    (h1 : o < mps.length) (h2 : o ≤ heads.length) (h3 : o ≤ lds.length)
    (h4 : o < urls.length) :
    truncateOnError mps heads lds urls (o : Int) =
      Except.ok (mps.take (o + 1), heads.take o, lds.take o, urls.take (o + 1)) :=
  truncateOnError_ok mps heads lds urls o h1 h2 h3 h4

/-- C3 witness: the asymmetric truncation evaluated on a concrete
two-entry chain with the error at index 1. -/
theorem C3_witness_test :
    truncateOnError
        [{ hasLoader := true, hasAction := false, hasHead := true,
           PathType := "static-layout" },
         { hasLoader := true, hasAction := false, hasHead := true, PathType := "index" }]
        [some (), some ()] [some "d0", none] ["/a.js", "/b.js"] ((1 : Nat) : Int) =
      Except.ok
        ([{ hasLoader := true, hasAction := false, hasHead := true,
            PathType := "static-layout" },
          { hasLoader := true, hasAction := false, hasHead := true,
            PathType := "index" }],
         [some ()], [some "d0"], ["/a.js", "/b.js"]) :=
  C3_amended_test
    [{ hasLoader := true, hasAction := false, hasHead := true,
       PathType := "static-layout" },
     { hasLoader := true, hasAction := false, hasHead := true, PathType := "index" }]
    [some (), some ()] [some "d0", none] ["/a.js", "/b.js"] 1
    (by decide) (by decide) (by decide) (by decide)

/-- C4 witness: a concrete one-entry chain whose loader errors makes the
orchestrator panic with a nil pointer dereference. -/
theorem C4_witness_test :
    orchestrate
      [{ hasLoader := true, hasAction := false, hasHead := true,
         PathType := "static-layout" }]
      ["/x.js"] "GET" (fun _ => (none, some "boom")) (none, none) =
      Except.error GoPanic.nilPointerDeref :=
  C4_amended_test
    [{ hasLoader := true, hasAction := false, hasHead := true,
       PathType := "static-layout" }]
    ["/x.js"] "GET" (fun _ => (none, some "boom")) (none, none) 0
    (by decide) (by decide) (by decide) (by decide)

/-- C7 witness: the deepest-entry params rule evaluated on the tiger
table and request "/tiger/123". -/
theorem C7_witness_test :
    (resolveRoute tigerRoutes "/tiger/123").matchingPaths.getLast? =
      some { Score := 5, RealSegmentsLength := 2, Segments := ["tiger", ":tiger_id", ""],
             PathType := "index", OutPath := "tiger_id_index.js",
             Params := [("tiger_id", "123")] } ∧
    (resolveRoute tigerRoutes "/tiger/123").params = [("tiger_id", "123")] :=
  ⟨by decide,
   C7_amended_test tigerRoutes "/tiger/123"
     { Score := 5, RealSegmentsLength := 2, Segments := ["tiger", ":tiger_id", ""],
       PathType := "index", OutPath := "tiger_id_index.js",
       Params := [("tiger_id", "123")] }
     (by decide)⟩

/-- C8 witness: the declared-versus-real segment bound evaluated on a
concrete surviving candidate. -/
theorem C8_witness_test :
    ({ Score := 3, RealSegmentsLength := 1, Segments := ["a"],
       PathType := "static-layout", OutPath := "", Params := [] } : MatchingPath) ∈
      filterBySegmentLength
        [{ Score := 3, RealSegmentsLength := 1, Segments := ["a"],
           PathType := "static-layout", OutPath := "", Params := [] }] "/a" ∧
    ((1 : Nat) = 0 ∨ (1 : Nat) ≤ 1 + (if ("static-layout" : String) = PathTypeIndex
      then 1 else 0)) :=
  ⟨by decide,
   C8_amended_test
     [{ Score := 3, RealSegmentsLength := 1, Segments := ["a"],
        PathType := "static-layout", OutPath := "", Params := [] }] "/a"
     { Score := 3, RealSegmentsLength := 1, Segments := ["a"],
       PathType := "static-layout", OutPath := "", Params := [] }
     (by decide)⟩

end Hwy
